import Mathlib

/-!
# gemini-client: order-spec parsing, symbol resolution, quantity normalisation

A shallow embedding of `src/lib/parse-order-spec.js`, `src/lib/find-symbol.js`,
`src/lib/normalize-quantity.js` and `src/lib/get-fees.js`.  A JavaScript function that may
`throw` becomes a function into `Except Thrown _`; an array of tokens becomes a
`List String`; the closure variable of `get-fees.js` becomes an explicit state.
-/

namespace GeminiClient

/-! ## Errors -/

/-- The class of a thrown object: `ParsingError` (from `./errors`) or the built-in `Error`. -/
inductive ErrorKind
  | ParsingError
  | Error
  deriving DecidableEq, Repr

/-- The `input` property attached to a `ParsingError`: a string (one token, or tokens
joined by spaces) or the token array itself. -/
inductive Input
  | text (value : String)
  | tokens (spec : List String)
  deriving DecidableEq, Repr

/-- A thrown object: its class, its message and, when given, its `input` property. -/
structure Thrown where
  kind : ErrorKind
  message : String
  input : Option Input
  deriving DecidableEq, Repr

/-- Modelled from the spec: the `ParsingError` class of `./errors`, which is not among the
source files.  The spec describes it as an error kind "carrying a human-readable message and
a context payload"; the source always builds it as `new ParsingError(message, { input })`. -/
def newParsingError (message : String) (input : Input) : Thrown :=
  { kind := ErrorKind.ParsingError, message := message, input := some input }

/-- The built-in `new Error(message)`. -/
def newError (message : String) : Thrown :=
  { kind := ErrorKind.Error, message := message, input := none }

/-! ## Decimal numbers (bignumber.js) -/

/-- Number of decimal places a `BigNumber` division is rounded to (the library default). -/
def DECIMAL_PLACES : Nat := 20

/-- The value held by a bignumber.js `BigNumber`, as far as this program can produce one:
`finite coeff places` stands for `coeff / 10 ^ places`; `infinity` and `nan` are the
library's `Infinity` and `NaN`.  Only non-negative values are represented: the parser
accepts no sign and division keeps values non-negative.  The library's exponent range
(`1e9`) is beyond the length of any string and is not modelled. -/
inductive BigNumber
  | finite (coeff : Nat) (places : Nat)
  | infinity
  | nan
  deriving DecidableEq, Repr

/-- The rational number a finite `BigNumber` stands for. -/
def BigNumber.value : BigNumber → Option ℚ
  | BigNumber.finite coeff places => some ((coeff : ℚ) / 10 ^ places)
  | BigNumber.infinity => none
  | BigNumber.nan => none

/-- Value of one decimal digit character. -/
def digitValue (c : Char) : Nat := c.toNat - 48

/-- A run of decimal digits read as a natural number, most significant digit first. -/
def digitsValue (cs : List Char) : Nat :=
  cs.foldl (fun acc c => 10 * acc + digitValue c) 0

/-- The constructor `new BigNumber(text)` on a string of digits with at most one decimal
point (the only strings `parseValue` passes to it): as in the library, the decimal point
is located and removed, the remaining digits are the coefficient and the number of digits
after the point is the number of decimal places.  Nothing is rounded. -/
def BigNumber.ofString (text : String) : BigNumber :=
  let ip := text.data.takeWhile (fun c => c != '.')
  let fp := (text.data.dropWhile (fun c => c != '.')).drop 1
  BigNumber.finite (digitsValue (ip ++ fp)) fp.length

/-- The method `x.div(y)` under the library's default configuration
(`DECIMAL_PLACES = 20`, `ROUNDING_MODE = ROUND_HALF_UP`): `NaN` if either is `NaN`, if both
are infinite or both are zero; zero if `y` is infinite; `Infinity` if `x` is infinite or
`y` is zero; otherwise the quotient rounded half-up to `DECIMAL_PLACES` decimal places.
It never throws. -/
def BigNumber.div : BigNumber → BigNumber → BigNumber
  | BigNumber.nan, _ => BigNumber.nan
  | _, BigNumber.nan => BigNumber.nan
  | BigNumber.infinity, BigNumber.infinity => BigNumber.nan
  | BigNumber.infinity, BigNumber.finite _ _ => BigNumber.infinity
  | BigNumber.finite _ _, BigNumber.infinity => BigNumber.finite 0 0
  | BigNumber.finite cx px, BigNumber.finite cy py =>
    if cy = 0 then (if cx = 0 then BigNumber.nan else BigNumber.infinity)
    else BigNumber.finite
      ((2 * (cx * 10 ^ (py + DECIMAL_PLACES)) + cy * 10 ^ px) / (2 * (cy * 10 ^ px)))
      DECIMAL_PLACES

/-! ## Data model -/

/-- The object `{ currency, amount }` returned by `parseValue`. -/
structure Value where
  currency : String
  amount : BigNumber
  deriving DecidableEq, Repr

/-- The object `{ baseValue, targetCurrency? }` returned by `parseAmount`; an absent
`targetCurrency` is `none`. -/
structure Amount where
  baseValue : Value
  targetCurrency : Option String
  deriving DecidableEq, Repr

/-- The object `{ quantity, rate }` returned by `parseOrderSpec`. -/
structure OrderSpec where
  quantity : Amount
  rate : Value
  deriving DecidableEq, Repr

/-- The object `{ symbol, invert }` returned by `findSymbol`. -/
structure SymbolResolution where
  symbol : String
  invert : Bool
  deriving DecidableEq, Repr

/-- The object `{ rate, quantity }` returned by `normalizeQuantity`. -/
structure NormalizedOrder where
  rate : Value
  quantity : Value
  deriving DecidableEq, Repr

/-! ## `src/lib/parse-order-spec.js` -/

/-- `spec.join(" ")`. -/
def join (spec : List String) : String := " ".intercalate spec

/-- The element `spec[i]` as a string; out of range reads as `undefined`. -/
def item (spec : List String) (i : Nat) : String := spec.getD i "undefined"

/-- `isNumeric(text)`: whether `text` matches `/^[0-9]+(?:\.[0-9]+)?$/`, that is a non-empty
run of digits, then either the end of the string or a dot and a non-empty run of digits up
to the end of the string. -/
def isNumeric (text : String) : Bool :=
  let ip := text.data.takeWhile Char.isDigit
  !ip.isEmpty &&
    (match text.data.dropWhile Char.isDigit with
      | [] => true
      | c :: fp => c == '.' && !fp.isEmpty && fp.all Char.isDigit)

/-- `parseCurrency(value)`. -/
def parseCurrency (value : String) : Except Thrown String :=
  if !(["BTC", "USD", "BCH", "ETH"].contains value) then
    throw (newParsingError "Unrecognized currency - supported options are USD, BTC, BCH, ETH"
      (Input.text value))
  else
    pure value

/-- `parseValue(spec)`. -/
def parseValue (spec : List String) : Except Thrown Value :=
  let flatString := join spec
  if spec.length < 2 then
    throw (newParsingError "Value must include both a currency symbol and a numeric value"
      (Input.text flatString))
  else if spec.length > 2 then
    throw (newParsingError
      "Could not understand the specified value, try this format instead: \"500 USD\""
      (Input.text flatString))
  else if !isNumeric (item spec 0) then
    throw (newParsingError "The 'amount' part of the value must be numeric"
      (Input.text (item spec 0)))
  else do
    let currency ← parseCurrency (item spec 1)
    pure { currency := currency, amount := BigNumber.ofString (item spec 0) }

/-- `parseAmount(spec)`. -/
def parseAmount (spec : List String) : Except Thrown Amount :=
  let flatString := join spec
  if spec.length < 2 then
    throw (newParsingError
      "Amount must include at least a currency symbol and a numberic value"
      (Input.text flatString))
  else if spec.length != 2 && spec.length != 4 && (spec.length == 4 && item spec 2 != "in") then
    throw (newParsingError
      "Amount to buy/sell must be in either of these two formats: '500 BTC', or '500 USD in BTC'"
      (Input.text flatString))
  else if spec.length == 2 then do
    let baseValue ← parseValue spec
    pure { baseValue := baseValue, targetCurrency := none }
  else if spec.length == 4 then do
    let baseValue ← parseValue (spec.take 2)
    let targetCurrency ← parseCurrency (item spec 3)
    pure { baseValue := baseValue, targetCurrency := some targetCurrency }
  else
    throw (newError "This should never happen")

/-- `spec.indexOf(searchElement)` counted from position `i`: the index of the first
element equal to `searchElement`, or `-1`. -/
def indexOfFrom (searchElement : String) : List String → Nat → Int
  | [], _ => -1
  | x :: xs, i => if x = searchElement then (i : Int) else indexOfFrom searchElement xs (i + 1)

/-- `spec.indexOf(searchElement)`. -/
def indexOf (spec : List String) (searchElement : String) : Int :=
  indexOfFrom searchElement spec 0

/-- `parseOrderSpec(spec)`. -/
def parseOrderSpec (spec : List String) : Except Thrown OrderSpec :=
  let atPosition := indexOf spec "@"
  if atPosition = -1 ∨ atPosition = 0 ∨ atPosition = (spec.length : Int) - 1 then
    throw (newParsingError "Must specify both an amount and a rate" (Input.tokens spec))
  else do
    let quantity ← parseAmount (spec.take atPosition.toNat)
    let rate ← parseValue (spec.drop (atPosition.toNat + 1))
    pure { quantity := quantity, rate := rate }

/-! ## `src/lib/find-symbol.js` -/

/-- `text.toLowerCase()`, on the ASCII letters. -/
def toLowerCase (text : String) : String := String.mk (text.data.map Char.toLower)

/-- `findSymbol(quantityCurrency, priceCurrency)`.  The array exported by `./valid-symbols`
is not among the source files and is the parameter `validSymbols`. -/
def findSymbol (validSymbols : List String) (quantityCurrency priceCurrency : String) :
    Except Thrown SymbolResolution :=
  let symbol1 := toLowerCase quantityCurrency ++ toLowerCase priceCurrency
  let symbol2 := toLowerCase priceCurrency ++ toLowerCase quantityCurrency
  if validSymbols.contains symbol1 then
    pure { symbol := symbol1, invert := false }
  else if validSymbols.contains symbol2 then
    pure { symbol := symbol2, invert := true }
  else
    throw (newError ("Invalid currency pair: " ++ quantityCurrency ++ " -> " ++ priceCurrency
      ++ " is not supported"))

/-! ## `src/lib/normalize-quantity.js` -/

/-- `normalizeQuantity(orderSpec)`. -/
def normalizeQuantity (orderSpec : OrderSpec) : Except Thrown NormalizedOrder :=
  let quantity := orderSpec.quantity
  let rate := orderSpec.rate
  match quantity.targetCurrency with
  | none => pure { rate := rate, quantity := quantity.baseValue }
  | some targetCurrency =>
    if quantity.baseValue.currency = rate.currency then
      pure { rate := rate,
             quantity := { currency := targetCurrency,
                           amount := quantity.baseValue.amount.div rate.amount } }
    else
      throw (newError "Currency of amount to buy/sell must match currency of the target rate")

/-! ## `src/lib/get-fees.js` -/

/-- What one invocation of `client.getMyNotionalVolume()` does: it returns a promise, it
returns `null` or `undefined`, or it throws. -/
inductive Invocation (P : Type)
  | promise (p : P)
  | nullish
  | throws (e : Thrown)

/-- The promise `Promise.try(...)` hands back, told by how it is settled: it follows the
promise the callback returned, it is fulfilled with `null` or `undefined`, or it is rejected
with what the callback threw. -/
inductive Attempt (P : Type)
  | follows (p : P)
  | nullish
  | rejected (e : Thrown)

/-- The state of one `getFees` instance: the closure variable `fees` (`none` while it is
`undefined` or `null`) and the number of invocations of `client.getMyNotionalVolume` made
so far. -/
structure FeeCache (P : Type) where
  fees : Option P
  invocations : Nat

/-- The state of a fresh instance: `let fees;`. -/
def FeeCache.fresh {P : Type} : FeeCache P := { fees := none, invocations := 0 }

/-- One call of `getFees()`.  `client n` is what invocation number `n` (from zero) of
`client.getMyNotionalVolume()` does.  The callback of `Promise.try` runs at once: when
`fees == null` it invokes the client and assigns the returned value to `fees`, then it
returns `fees`. -/
def getFees {P : Type} (client : Nat → Invocation P) (cache : FeeCache P) :
    Attempt P × FeeCache P :=
  match cache.fees with
  | none =>
    match client cache.invocations with
    | Invocation.promise p =>
      (Attempt.follows p, { fees := some p, invocations := cache.invocations + 1 })
    | Invocation.nullish =>
      (Attempt.nullish, { fees := none, invocations := cache.invocations + 1 })
    | Invocation.throws e =>
      (Attempt.rejected e, { fees := none, invocations := cache.invocations + 1 })
  | some p => (Attempt.follows p, cache)

/-- A sequence of `count` calls of `getFees()` on one instance: what each call hands back,
in order, and the state afterwards. -/
def getFeesCalls {P : Type} (client : Nat → Invocation P) :
    Nat → FeeCache P → List (Attempt P) × FeeCache P
  | 0, cache => ([], cache)
  | count + 1, cache =>
    let first := getFees client cache
    let rest := getFeesCalls client count first.2
    (first.1 :: rest.1, rest.2)

/-! ## Specification-side definitions -/

/-- The token written with integer digits `ip` and fraction digits `fp`: `ip` alone when
there is no fraction, `ip`, a dot and `fp` otherwise. -/
def numeral (ip fp : List Char) : String :=
  match fp with
  | [] => String.mk ip
  | _ :: _ => String.mk (ip ++ '.' :: fp)

/-- The numeric grammar of the spec, `^[0-9]+(\.[0-9]+)?$`: one or more digits, optionally
followed by a dot and one or more digits. -/
def NumericGrammar (text : String) : Prop :=
  ∃ ip fp : List Char, ip ≠ [] ∧ (∀ c ∈ ip, c.isDigit = true) ∧ (∀ c ∈ fp, c.isDigit = true) ∧
    text = numeral ip fp

/-- The integer denoted by a digit string, by position: each digit times the power of ten
of its place. -/
def intValue : List Char → ℚ
  | [] => 0
  | c :: cs => (digitValue c : ℚ) * 10 ^ cs.length + intValue cs

/-- The fraction denoted by the digits after the decimal point, by position: the first
digit counts tenths, the next hundredths, and so on. -/
def fracValue : List Char → ℚ
  | [] => 0
  | c :: cs => ((digitValue c : ℚ) + fracValue cs) / 10

/-- The exactness the spec asks of a division: `quotient`, `dividend` and `divisor` are
finite and `quotient` times `divisor` equals `dividend`. -/
def ExactQuotient (quotient dividend divisor : BigNumber) : Prop :=
  ∃ x y z : ℚ, quotient.value = some x ∧ divisor.value = some y ∧ dividend.value = some z ∧
    x * y = z

/-- Tokens joined by single spaces. -/
def spaced : List String → String
  | [] => ""
  | [a] => a
  | a :: b :: rest => a ++ " " ++ spaced (b :: rest)

/-- Two characters that differ at most in letter case: they are equal, or one is an
uppercase letter `A`..`Z` and the other is the same letter in lowercase. -/
def sameLetter (c d : Char) : Bool :=
  c == d ||
    (decide (65 ≤ c.toNat) && decide (c.toNat ≤ 90) && decide (d.toNat = c.toNat + 32)) ||
    (decide (65 ≤ d.toNat) && decide (d.toNat ≤ 90) && decide (c.toNat = d.toNat + 32))

/-- Two character lists of the same length that differ at most in letter case, position by
position. -/
def sameLetters : List Char → List Char → Bool
  | [], [] => true
  | c :: cs, d :: ds => sameLetter c d && sameLetters cs ds
  | _, _ => false

/-- Two strings that differ only in letter case. -/
def CaseVariant (s t : String) : Prop := sameLetters s.data t.data = true

/-- What the spec asks of the class of the failure of `findSymbol`, its
`UnsupportedPairError` (section 7): a class of its own, "kept separate" from the failures
of parsing and of normalising.  It is not `ParsingError`, and no failure of
`parseOrderSpec` or of `normalizeQuantity` is of that class. -/
def IsUnsupportedPairError (kind : ErrorKind) : Prop :=
  kind ≠ ErrorKind.ParsingError ∧
  (∀ spec e, parseOrderSpec spec = Except.error e → e.kind ≠ kind) ∧
  (∀ orderSpec e, normalizeQuantity orderSpec = Except.error e → e.kind ≠ kind)

/-- The fixed currency set of the spec. -/
def currencySet : List String := ["BTC", "USD", "BCH", "ETH"]

/-! ## Lemmas on digits and the numeric grammar -/

theorem takeWhile_append_all {p : Char → Bool} (l r : List Char) (h : ∀ c ∈ l, p c = true) :
    (l ++ r).takeWhile p = l ++ r.takeWhile p := by
  induction l with
  | nil => rfl
  | cons a l ih =>
    have ha : p a = true := h a (List.mem_cons_self a l)
    simp [List.takeWhile_cons, ha, ih (fun c hc => h c (List.mem_cons_of_mem a hc))]

theorem dropWhile_append_all {p : Char → Bool} (l r : List Char) (h : ∀ c ∈ l, p c = true) :
    (l ++ r).dropWhile p = r.dropWhile p := by
  induction l with
  | nil => rfl
  | cons a l ih =>
    have ha : p a = true := h a (List.mem_cons_self a l)
    simp [List.dropWhile_cons, ha, ih (fun c hc => h c (List.mem_cons_of_mem a hc))]

theorem isDigit_ne_dot (c : Char) (h : c.isDigit = true) : (c != '.') = true := by
  have : c ≠ '.' := by
    rintro rfl
    exact absurd h (by decide)
  simpa using this

theorem foldl_digits (cs : List Char) (acc : Nat) :
    cs.foldl (fun acc c => 10 * acc + digitValue c) acc = acc * 10 ^ cs.length + digitsValue cs := by
  induction cs generalizing acc with
  | nil => simp [digitsValue]
  | cons c cs ih =>
    simp only [List.foldl_cons, List.length_cons, digitsValue]
    rw [ih, ih (10 * 0 + digitValue c)]
    ring

theorem digitsValue_cons (c : Char) (cs : List Char) :
    digitsValue (c :: cs) = digitValue c * 10 ^ cs.length + digitsValue cs := by
  simp only [digitsValue, List.foldl_cons]
  rw [foldl_digits]
  simp [digitsValue]

theorem digitsValue_append (a b : List Char) :
    digitsValue (a ++ b) = digitsValue a * 10 ^ b.length + digitsValue b := by
  simp only [digitsValue, List.foldl_append]
  rw [foldl_digits]
  simp [digitsValue]

theorem intValue_eq (cs : List Char) : intValue cs = (digitsValue cs : ℚ) := by
  induction cs with
  | nil => simp [intValue, digitsValue]
  | cons c cs ih => rw [digitsValue_cons, intValue, ih]; push_cast; ring

theorem fracValue_eq (cs : List Char) : fracValue cs = (digitsValue cs : ℚ) / 10 ^ cs.length := by
  induction cs with
  | nil => simp [fracValue, digitsValue]
  | cons c cs ih =>
    rw [digitsValue_cons, fracValue, ih]
    push_cast
    simp only [List.length_cons]
    have h : (10 : ℚ) ^ cs.length ≠ 0 := by positivity
    rw [pow_succ]
    field_simp

theorem isNumeric_numeral (ip fp : List Char) (hip : ip ≠ [])
    (hipd : ∀ c ∈ ip, c.isDigit = true) (hfpd : ∀ c ∈ fp, c.isDigit = true) :
    isNumeric (numeral ip fp) = true := by
  have hne : ip.isEmpty = false := by cases ip <;> simp_all
  cases fp with
  | nil =>
    have h1 := takeWhile_append_all ip [] hipd
    have h2 := dropWhile_append_all ip [] hipd
    simp only [List.append_nil, List.takeWhile_nil, List.dropWhile_nil] at h1 h2
    simp [isNumeric, numeral, h1, h2, hne]
  | cons f fs =>
    have h1 := takeWhile_append_all ip ('.' :: f :: fs) hipd
    have h2 := dropWhile_append_all ip ('.' :: f :: fs) hipd
    have hd : Char.isDigit '.' = false := by decide
    simp only [List.takeWhile_cons, List.dropWhile_cons, hd, List.append_nil] at h1 h2
    simp only [isNumeric, numeral, h1, h2, hne]
    simpa [hip] using hfpd

theorem numericGrammar_of_isNumeric (text : String) (h : isNumeric text = true) :
    NumericGrammar text := by
  have hsplit : text.data.takeWhile Char.isDigit ++ text.data.dropWhile Char.isDigit = text.data :=
    List.takeWhile_append_dropWhile _ _
  have hdig : ∀ c ∈ text.data.takeWhile Char.isDigit, c.isDigit = true :=
    fun c hc => (List.mem_takeWhile_imp hc)
  simp only [isNumeric, Bool.and_eq_true, Bool.not_eq_true', List.isEmpty_eq_false] at h
  obtain ⟨hne, hrest⟩ := h
  generalize hr : text.data.dropWhile Char.isDigit = rest at hrest hsplit
  cases rest with
  | nil =>
    refine ⟨text.data.takeWhile Char.isDigit, [], hne, hdig, by simp, ?_⟩
    simp only [numeral]
    rw [List.append_nil] at hsplit
    rw [hsplit]
  | cons c fp =>
    simp only [Bool.and_eq_true, beq_iff_eq, Bool.not_eq_true', List.all_eq_true] at hrest
    obtain ⟨⟨hc, hfne⟩, hfd⟩ := hrest
    subst hc
    refine ⟨text.data.takeWhile Char.isDigit, fp, hne, hdig, hfd, ?_⟩
    cases fp with
    | nil => simp at hfne
    | cons f fs =>
      simp only [numeral]
      rw [hsplit]

theorem isNumeric_iff (text : String) : isNumeric text = true ↔ NumericGrammar text := by
  constructor
  · exact numericGrammar_of_isNumeric text
  · rintro ⟨ip, fp, hip, hipd, hfpd, rfl⟩
    exact isNumeric_numeral ip fp hip hipd hfpd

theorem ofString_numeral (ip fp : List Char)
    (hipd : ∀ c ∈ ip, c.isDigit = true) :
    BigNumber.ofString (numeral ip fp) = BigNumber.finite (digitsValue (ip ++ fp)) fp.length := by
  have hnd : ∀ c ∈ ip, (c != '.') = true := fun c hc => isDigit_ne_dot c (hipd c hc)
  cases fp with
  | nil =>
    have h1 := takeWhile_append_all ip [] hnd
    have h2 := dropWhile_append_all ip [] hnd
    simp only [List.append_nil, List.takeWhile_nil, List.dropWhile_nil] at h1 h2
    simp [BigNumber.ofString, numeral, h1, h2]
  | cons f fs =>
    have h1 := takeWhile_append_all ip ('.' :: f :: fs) hnd
    have h2 := dropWhile_append_all ip ('.' :: f :: fs) hnd
    simp only [List.takeWhile_cons, List.dropWhile_cons, bne_self_eq_false, List.append_nil] at h1 h2
    simp [BigNumber.ofString, numeral, h1, h2]

theorem parseCurrency_of_mem (c : String) (h : c ∈ currencySet) : parseCurrency c = Except.ok c := by
  have : ["BTC", "USD", "BCH", "ETH"].contains c = true := by
    simpa [currencySet] using h
  unfold parseCurrency
  rw [this]
  rfl

theorem parseCurrency_of_not_mem (c : String) (h : c ∉ currencySet) :
    parseCurrency c = Except.error (newParsingError
      "Unrecognized currency - supported options are USD, BTC, BCH, ETH" (Input.text c)) := by
  have : ["BTC", "USD", "BCH", "ETH"].contains c = false := by
    simpa [currencySet] using h
  unfold parseCurrency
  rw [this]
  rfl

theorem parseValue_pair (n c : String) :
    parseValue [n, c] =
      if isNumeric n = true then
        (if c ∈ currencySet then Except.ok { currency := c, amount := BigNumber.ofString n }
         else Except.error (newParsingError
           "Unrecognized currency - supported options are USD, BTC, BCH, ETH" (Input.text c)))
      else Except.error (newParsingError "The 'amount' part of the value must be numeric"
        (Input.text n)) := by
  by_cases hn : isNumeric n = true
  · by_cases hc : c ∈ currencySet
    · simp [parseValue, item, hn, hc, parseCurrency_of_mem c hc, bind, Except.bind, pure,
        Except.pure]
    · simp [parseValue, item, hn, hc, parseCurrency_of_not_mem c hc, bind, Except.bind]
  · simp [parseValue, item, hn, throw, throwThe, MonadExceptOf.throw]

theorem parseValue_short (spec : List String) (h : spec.length < 2) :
    parseValue spec = Except.error (newParsingError
      "Value must include both a currency symbol and a numeric value" (Input.text (join spec))) := by
  simp [parseValue, h, throw, throwThe, MonadExceptOf.throw]

theorem parseValue_long (spec : List String) (h : 2 < spec.length) :
    parseValue spec = Except.error (newParsingError
      "Could not understand the specified value, try this format instead: \"500 USD\""
      (Input.text (join spec))) := by
  have h1 : ¬ spec.length < 2 := by omega
  simp [parseValue, h, h1, throw, throwThe, MonadExceptOf.throw]

/-! ## The value parser -/

/-- C1: for digits `ip` (at least one) and `fp` (possibly none) and a currency `C` of the
fixed set, `parseValue` on the token written `ip` or `ip.fp` followed by `C` succeeds with
currency `C` and an amount whose value is exactly the decimal number the digits denote by
position, whatever their number. -/
theorem parseValue_exact (ip fp : List Char) (C : String)
    (hip : ip ≠ []) (hipd : ∀ c ∈ ip, c.isDigit = true) (hfpd : ∀ c ∈ fp, c.isDigit = true)
    (hC : C ∈ currencySet) :
    ∃ a : BigNumber,
      parseValue [numeral ip fp, C] = Except.ok { currency := C, amount := a } ∧
      a.value = some (intValue ip + fracValue fp) := by
  refine ⟨BigNumber.finite (digitsValue (ip ++ fp)) fp.length, ?_, ?_⟩
  · simp [parseValue, item, isNumeric_numeral ip fp hip hipd hfpd, parseCurrency_of_mem C hC,
      ofString_numeral ip fp hipd, bind, Except.bind, pure, Except.pure]
  · simp only [BigNumber.value, digitsValue_append, intValue_eq, fracValue_eq]
    have h : (10 : ℚ) ^ fp.length ≠ 0 := by positivity
    push_cast
    field_simp

/-- C1 at the token `12.05` and the currency `BTC`. -/
theorem parseValue_exact_witness :
    ∃ a : BigNumber,
      parseValue [numeral ['1', '2'] ['0', '5'], "BTC"] = Except.ok { currency := "BTC", amount := a } ∧
      a.value = some (intValue ['1', '2'] + fracValue ['0', '5']) :=
  parseValue_exact ['1', '2'] ['0', '5'] "BTC" (by decide) (by decide) (by decide) (by decide)

/-- C2: `parseValue` succeeds exactly on the two-token lists whose first token is of the
numeric grammar and whose second token is one of `BTC`, `USD`, `BCH`, `ETH`; on every other
list it fails, and the failure is a `ParsingError`. -/
theorem parseValue_succeeds_iff (spec : List String) :
    ((∃ v, parseValue spec = Except.ok v) ↔
      ∃ n c, spec = [n, c] ∧ NumericGrammar n ∧ c ∈ currencySet) ∧
    ((∃ v, parseValue spec = Except.ok v) ∨
      ∃ e, parseValue spec = Except.error e ∧ e.kind = ErrorKind.ParsingError) := by
  match spec with
  | [] =>
    rw [parseValue_short [] (by simp)]
    exact ⟨⟨fun ⟨_, h⟩ => (by cases h), fun ⟨_, _, h, _⟩ => (by cases h)⟩, Or.inr ⟨_, rfl, rfl⟩⟩
  | [a] =>
    rw [parseValue_short [a] (by simp)]
    exact ⟨⟨fun ⟨_, h⟩ => (by cases h), fun ⟨_, _, h, _⟩ => (by cases h)⟩, Or.inr ⟨_, rfl, rfl⟩⟩
  | a :: b :: c :: rest =>
    rw [parseValue_long (a :: b :: c :: rest) (by simp)]
    exact ⟨⟨fun ⟨_, h⟩ => (by cases h), fun ⟨_, _, h, _⟩ => (by cases h)⟩, Or.inr ⟨_, rfl, rfl⟩⟩
  | [n, c] =>
    rw [parseValue_pair]
    by_cases hn : isNumeric n = true
    · by_cases hc : c ∈ currencySet
      · simp only [hn, hc, if_true]
        exact ⟨⟨fun _ => ⟨n, c, rfl, (isNumeric_iff n).1 hn, hc⟩, fun _ => ⟨_, rfl⟩⟩,
          Or.inl ⟨_, rfl⟩⟩
      · simp only [hn, hc, if_true, if_false]
        refine ⟨⟨fun ⟨_, h⟩ => (by cases h), ?_⟩, Or.inr ⟨_, rfl, rfl⟩⟩
        rintro ⟨n', c', h, _, hc'⟩
        simp only [List.cons.injEq, and_true] at h
        exact absurd (h.2 ▸ hc') hc
    · simp only [hn, if_false]
      refine ⟨⟨fun ⟨_, h⟩ => (by cases h), ?_⟩, Or.inr ⟨_, rfl, rfl⟩⟩
      rintro ⟨n', c', h, hg, _⟩
      simp only [List.cons.injEq, and_true] at h
      exact absurd ((isNumeric_iff n).2 (h.1 ▸ hg)) hn

/-- C2 on concrete tokens: `500 USD` and `0.50 ETH` are accepted; a sign, an exponent, a
leading dot, a trailing dot, an empty amount, a lowercase currency, one token and three
tokens are each rejected with a `ParsingError`. -/
theorem parseValue_succeeds_iff_witness :
    parseValue ["500", "USD"] =
      Except.ok { currency := "USD", amount := BigNumber.finite 500 0 } ∧
    parseValue ["0.50", "ETH"] =
      Except.ok { currency := "ETH", amount := BigNumber.finite 50 2 } ∧
    (∀ spec ∈ [["-5", "USD"], ["1e3", "USD"], [".5", "USD"], ["5.", "USD"], ["", "USD"],
        ["5", "usd"], ["5"], ["5", "USD", "x"]],
      ∃ e, parseValue spec = Except.error e ∧ e.kind = ErrorKind.ParsingError) := by
  refine ⟨rfl, rfl, ?_⟩
  intro spec hs
  simp only [List.mem_cons, List.mem_singleton, List.not_mem_nil, or_false] at hs
  rcases hs with rfl | rfl | rfl | rfl | rfl | rfl | rfl | rfl <;> exact ⟨_, rfl, rfl⟩

/-! ## The amount parser -/

theorem parseAmount_four (a b c d : String) :
    parseAmount [a, b, c, d] = parseAmount [a, b, "in", d] := by
  simp [parseAmount, item]

theorem parseAmount_other_length (spec : List String) (h2 : 2 < spec.length)
    (h4 : spec.length ≠ 4) :
    parseAmount spec = Except.error (newError "This should never happen") := by
  have h1 : ¬ spec.length < 2 := by omega
  have h3 : spec.length ≠ 2 := by omega
  simp [parseAmount, h1, h3, h4, throw, throwThe, MonadExceptOf.throw]

/-- C3: the four tokens `500 USD foo BTC`, whose third token is not `in`, are accepted by
`parseAmount` as if the third token were `in`: the test on `spec[2]` sits in a condition
that no list satisfies. -/
theorem parseAmount_accepts_any_third_token :
    parseAmount ["500", "USD", "foo", "BTC"] =
      Except.ok { baseValue := { currency := "USD", amount := BigNumber.finite 500 0 },
                  targetCurrency := some "BTC" } ∧
    parseAmount ["500", "USD", "foo", "BTC"] = parseAmount ["500", "USD", "in", "BTC"] :=
  ⟨rfl, rfl⟩

/-- C4: on the three tokens `1 BTC x` `parseAmount` reaches its last branch and throws the
built-in `Error` with message `This should never happen`, which is not a `ParsingError`. -/
theorem parseAmount_reaches_last_branch :
    parseAmount ["1", "BTC", "x"] = Except.error (newError "This should never happen") ∧
    (newError "This should never happen").kind ≠ ErrorKind.ParsingError :=
  ⟨rfl, by decide⟩

/-! ## The order-spec parser -/

theorem indexOfFrom_of_not_mem (x : String) (l : List String) (i : Nat) (h : x ∉ l) :
    indexOfFrom x l i = -1 := by
  induction l generalizing i with
  | nil => rfl
  | cons y ys ih =>
    have hy : y ≠ x := fun e => h (e ▸ List.mem_cons_self y ys)
    simp only [indexOfFrom, hy, if_false]
    exact ih (i + 1) (fun hm => h (List.mem_cons_of_mem y hm))

theorem indexOfFrom_append (x : String) (pre post : List String) (i : Nat) (h : x ∉ pre) :
    indexOfFrom x (pre ++ x :: post) i = ((i + pre.length : Nat) : Int) := by
  induction pre generalizing i with
  | nil => simp [indexOfFrom]
  | cons y ys ih =>
    have hy : y ≠ x := fun e => h (e ▸ List.mem_cons_self y ys)
    have ih1 := ih (i + 1) (fun hm => h (List.mem_cons_of_mem y hm))
    simp only [List.cons_append, indexOfFrom, hy, if_false, List.length_cons]
    rw [show ys.append (x :: post) = ys ++ x :: post from rfl, ih1]
    congr 1
    omega

theorem indexOf_append (x : String) (pre post : List String) (h : x ∉ pre) :
    indexOf (pre ++ x :: post) x = (pre.length : Int) := by
  simp [indexOf, indexOfFrom_append x pre post 0 h]

/-- C5: on `1 BTC x @ 5 @`, which holds two `@`, `parseOrderSpec` fails with the built-in
`Error` of the last branch of `parseAmount` and not with a `ParsingError`. -/
theorem parseOrderSpec_two_separators :
    parseOrderSpec ["1", "BTC", "x", "@", "5", "@"] =
      Except.error (newError "This should never happen") ∧
    (newError "This should never happen").kind ≠ ErrorKind.ParsingError :=
  ⟨rfl, by decide⟩

/-- C6: when `@` does not occur in the tokens, or the first `@` is the first token, or the
first `@` is the last token, `parseOrderSpec` fails with the `ParsingError`
`Must specify both an amount and a rate` whose input is the whole token list, whatever the
other tokens are. -/
theorem parseOrderSpec_requires_amount_and_rate (spec : List String)
    (h : "@" ∉ spec ∨ (∃ post, spec = "@" :: post) ∨ (∃ pre, "@" ∉ pre ∧ spec = pre ++ ["@"])) :
    parseOrderSpec spec =
      Except.error (newParsingError "Must specify both an amount and a rate"
        (Input.tokens spec)) := by
  have hcond : indexOf spec "@" = -1 ∨ indexOf spec "@" = 0 ∨
      indexOf spec "@" = (spec.length : Int) - 1 := by
    rcases h with h | ⟨post, rfl⟩ | ⟨pre, hpre, rfl⟩
    · exact Or.inl (indexOfFrom_of_not_mem "@" spec 0 h)
    · exact Or.inr (Or.inl (by simp [indexOf, indexOfFrom]))
    · refine Or.inr (Or.inr ?_)
      rw [indexOf_append "@" pre [] hpre]
      simp
  simp only [parseOrderSpec, hcond, if_true]
  rfl

/-- C6 at `bad @`, where the first `@` is the last token and the amount before it is
malformed. -/
theorem parseOrderSpec_requires_amount_and_rate_witness :
    parseOrderSpec ["bad", "@"] =
      Except.error (newParsingError "Must specify both an amount and a rate"
        (Input.tokens ["bad", "@"])) :=
  parseOrderSpec_requires_amount_and_rate ["bad", "@"]
    (Or.inr (Or.inr ⟨["bad"], by decide, rfl⟩))

/-! ## The symbol resolver -/

theorem findSymbol_direct (V : List String) (q p : String)
    (h : toLowerCase q ++ toLowerCase p ∈ V) :
    findSymbol V q p =
      Except.ok { symbol := toLowerCase q ++ toLowerCase p, invert := false } := by
  have hc : V.contains (toLowerCase q ++ toLowerCase p) = true := by simpa using h
  simp only [findSymbol, hc, if_true]
  rfl

theorem findSymbol_inverted (V : List String) (q p : String)
    (h1 : toLowerCase q ++ toLowerCase p ∉ V) (h2 : toLowerCase p ++ toLowerCase q ∈ V) :
    findSymbol V q p =
      Except.ok { symbol := toLowerCase p ++ toLowerCase q, invert := true } := by
  have hc1 : V.contains (toLowerCase q ++ toLowerCase p) = false := by simpa using h1
  have hc2 : V.contains (toLowerCase p ++ toLowerCase q) = true := by simpa using h2
  simp only [findSymbol, hc1, hc2, if_true, Bool.false_eq_true, if_false]
  rfl

theorem findSymbol_unsupported (V : List String) (q p : String)
    (h1 : toLowerCase q ++ toLowerCase p ∉ V) (h2 : toLowerCase p ++ toLowerCase q ∉ V) :
    findSymbol V q p =
      Except.error (newError
        ("Invalid currency pair: " ++ q ++ " -> " ++ p ++ " is not supported")) := by
  have hc1 : V.contains (toLowerCase q ++ toLowerCase p) = false := by simpa using h1
  have hc2 : V.contains (toLowerCase p ++ toLowerCase q) = false := by simpa using h2
  simp only [findSymbol, hc1, hc2, Bool.false_eq_true, if_false]
  rfl

/-- C7: if `lower(q) + lower(p)` is a valid symbol, `findSymbol(q, p)` returns it with
`invert: false`, whether or not the reversed concatenation is valid too; otherwise, if
`lower(p) + lower(q)` is a valid symbol, it returns that with `invert: true`. -/
theorem findSymbol_resolves (V : List String) (q p : String) :
    (toLowerCase q ++ toLowerCase p ∈ V →
      findSymbol V q p =
        Except.ok { symbol := toLowerCase q ++ toLowerCase p, invert := false }) ∧
    (toLowerCase q ++ toLowerCase p ∉ V → toLowerCase p ++ toLowerCase q ∈ V →
      findSymbol V q p =
        Except.ok { symbol := toLowerCase p ++ toLowerCase q, invert := true }) :=
  ⟨findSymbol_direct V q p, findSymbol_inverted V q p⟩

/-- C7 on the examples of the spec: with `btcusd` valid, `BTC`/`USD` resolves directly and
`USD`/`BTC` resolves inverted; with both orders valid the direct one wins. -/
theorem findSymbol_resolves_witness :
    findSymbol ["btcusd"] "BTC" "USD" = Except.ok { symbol := "btcusd", invert := false } ∧
    findSymbol ["btcusd"] "USD" "BTC" = Except.ok { symbol := "btcusd", invert := true } ∧
    findSymbol ["usdbtc", "btcusd"] "BTC" "USD" =
      Except.ok { symbol := "btcusd", invert := false } :=
  ⟨(findSymbol_resolves ["btcusd"] "BTC" "USD").1 (by decide),
   (findSymbol_resolves ["btcusd"] "USD" "BTC").2 (by decide) (by decide),
   (findSymbol_resolves ["usdbtc", "btcusd"] "BTC" "USD").1 (by decide)⟩

/-- C8, as the code has it: `findSymbol(q, p)` fails exactly when neither
`lower(q) + lower(p)` nor `lower(p) + lower(q)` is a valid symbol; the object thrown is then
a built-in `Error`, not a `ParsingError`, and its message is
`Invalid currency pair: q -> p is not supported`, naming `q` before `p`. -/
theorem findSymbol_fails_iff (V : List String) (q p : String) :
    ((∃ e, findSymbol V q p = Except.error e) ↔
      (toLowerCase q ++ toLowerCase p ∉ V ∧ toLowerCase p ++ toLowerCase q ∉ V)) ∧
    (∀ e, findSymbol V q p = Except.error e →
      e.kind = ErrorKind.Error ∧ e.kind ≠ ErrorKind.ParsingError ∧
      e.message = "Invalid currency pair: " ++ q ++ " -> " ++ p ++ " is not supported") := by
  by_cases h1 : toLowerCase q ++ toLowerCase p ∈ V
  · rw [findSymbol_direct V q p h1]
    exact ⟨⟨fun ⟨_, h⟩ => (by cases h), fun h => absurd h1 h.1⟩, fun e h => (by cases h)⟩
  · by_cases h2 : toLowerCase p ++ toLowerCase q ∈ V
    · rw [findSymbol_inverted V q p h1 h2]
      exact ⟨⟨fun ⟨_, h⟩ => (by cases h), fun h => absurd h2 h.2⟩, fun e h => (by cases h)⟩
    · rw [findSymbol_unsupported V q p h1 h2]
      refine ⟨⟨fun _ => ⟨h1, h2⟩, fun _ => ⟨_, rfl⟩⟩, fun e h => ?_⟩
      cases h
      exact ⟨rfl, by simp [newError], rfl⟩

/-- C8 on the example of the spec: `ETH`/`BCH` against a symbol set holding neither
`ethbch` nor `bcheth`. -/
theorem findSymbol_fails_iff_witness :
    ∃ e, findSymbol ["btcusd", "ethusd"] "ETH" "BCH" = Except.error e ∧
      e.kind = ErrorKind.Error ∧
      e.message = "Invalid currency pair: ETH -> BCH is not supported" :=
  match ((findSymbol_fails_iff ["btcusd", "ethusd"] "ETH" "BCH").1).2
      ⟨by decide, by decide⟩ with
  | ⟨e, he⟩ =>
    ⟨e, he, ((findSymbol_fails_iff ["btcusd", "ethusd"] "ETH" "BCH").2 e he).1,
      ((findSymbol_fails_iff ["btcusd", "ethusd"] "ETH" "BCH").2 e he).2.2⟩

theorem no_unsupportedPairError (kind : ErrorKind) : ¬ IsUnsupportedPairError kind := by
  rintro ⟨hp, -, hn⟩
  cases kind with
  | ParsingError => exact hp rfl
  | Error =>
    exact hn
      { quantity := { baseValue := { currency := "BTC", amount := BigNumber.finite 1 0 },
                      targetCurrency := some "ETH" },
        rate := { currency := "USD", amount := BigNumber.finite 50 0 } }
      (newError "Currency of amount to buy/sell must match currency of the target rate")
      rfl rfl

/-- C8 as stated fails on the example of the spec, `ETH`/`BCH` against a symbol set holding
neither `ethbch` nor `bcheth`: the object thrown is a built-in `Error`, of the same class as
the failure of `normalizeQuantity` on mismatched currencies and as the failure of
`parseOrderSpec` on `1 BTC x @ 5 USD`; it is of no class kept for unsupported pairs, and the
code has no such class. -/
theorem findSymbol_error_is_builtin :
    findSymbol ["btcusd", "ethusd"] "ETH" "BCH" =
      Except.error (newError "Invalid currency pair: ETH -> BCH is not supported") ∧
    (newError "Invalid currency pair: ETH -> BCH is not supported").kind = ErrorKind.Error ∧
    normalizeQuantity
      { quantity := { baseValue := { currency := "BTC", amount := BigNumber.finite 1 0 },
                      targetCurrency := some "ETH" },
        rate := { currency := "USD", amount := BigNumber.finite 50 0 } } =
      Except.error
        (newError "Currency of amount to buy/sell must match currency of the target rate") ∧
    (newError "Currency of amount to buy/sell must match currency of the target rate").kind =
      ErrorKind.Error ∧
    parseOrderSpec ["1", "BTC", "x", "@", "5", "USD"] =
      Except.error (newError "This should never happen") ∧
    (newError "This should never happen").kind = ErrorKind.Error ∧
    (¬ ∃ e, findSymbol ["btcusd", "ethusd"] "ETH" "BCH" = Except.error e ∧
      IsUnsupportedPairError e.kind) ∧
    (∀ kind, ¬ IsUnsupportedPairError kind) :=
  ⟨rfl, rfl, rfl, rfl, rfl, rfl, fun ⟨e, _, h⟩ => no_unsupportedPairError e.kind h,
    no_unsupportedPairError⟩

/-! ## The quantity normaliser -/

theorem pow_ten_mod_three (n : Nat) : 10 ^ n % 3 = 1 := by
  induction n with
  | zero => rfl
  | succ n ih => rw [pow_succ, Nat.mul_mod, ih]

theorem no_exact_third (a : BigNumber) :
    ¬ ExactQuotient a (BigNumber.finite 1 0) (BigNumber.finite 3 0) := by
  rintro ⟨x, y, z, hx, hy, hz, h⟩
  cases a with
  | infinity => simp [BigNumber.value] at hx
  | nan => simp [BigNumber.value] at hx
  | finite c n =>
    simp only [BigNumber.value, Option.some.injEq] at hx hy hz
    subst hx hy hz
    have hpos : (10 : ℚ) ^ n ≠ 0 := by positivity
    have h3 : ((c * 3 : Nat) : ℚ) = ((10 ^ n : Nat) : ℚ) := by
      push_cast
      field_simp at h
      linarith
    have h4 : c * 3 = 10 ^ n := by exact_mod_cast h3
    have h5 := pow_ten_mod_three n
    omega

theorem div_finite (cx px cy py : Nat) (hy : cy ≠ 0) :
    (BigNumber.finite cx px).div (BigNumber.finite cy py) =
      BigNumber.finite
        ((2 * (cx * 10 ^ (py + DECIMAL_PLACES)) + cy * 10 ^ px) / (2 * (cy * 10 ^ px)))
        DECIMAL_PLACES := by
  simp [BigNumber.div, hy]

theorem round_bounds (n d : Nat) (hd : 0 < d) :
    2 * d * ((2 * n + d) / (2 * d)) ≤ 2 * n + d ∧
    2 * n + d < 2 * d * ((2 * n + d) / (2 * d)) + 2 * d := by
  have h2 : 0 < 2 * d := by omega
  constructor
  · exact Nat.mul_div_le (2 * n + d) (2 * d)
  · have := Nat.lt_mul_div_succ (2 * n + d) h2
    rw [Nat.mul_add, Nat.mul_one] at this
    exact this

theorem round_exact (n d j : Nat) (hd : 0 < d) (h : j * d = n) :
    (2 * n + d) / (2 * d) = j := by
  subst h
  apply Nat.div_eq_of_lt_le
  · nlinarith
  · rw [Nat.succ_mul]
    nlinarith

theorem div_rounds (cx px cy py : Nat) (hy : cy ≠ 0) :
    ∃ k : Nat,
      (BigNumber.finite cx px).div (BigNumber.finite cy py) = BigNumber.finite k DECIMAL_PLACES ∧
      |(k : ℚ) / 10 ^ DECIMAL_PLACES * ((cy : ℚ) / 10 ^ py) - (cx : ℚ) / 10 ^ px| ≤
        ((cy : ℚ) / 10 ^ py) / (2 * 10 ^ DECIMAL_PLACES) ∧
      (∀ j : Nat, (j : ℚ) / 10 ^ DECIMAL_PLACES * ((cy : ℚ) / 10 ^ py) = (cx : ℚ) / 10 ^ px →
        k = j) := by
  have hd : 0 < cy * 10 ^ px := Nat.mul_pos (Nat.pos_of_ne_zero hy) (by positivity)
  refine ⟨_, div_finite cx px cy py hy, ?_, ?_⟩
  · obtain ⟨hlo, hhi⟩ := round_bounds (cx * 10 ^ (py + DECIMAL_PLACES)) (cy * 10 ^ px) hd
    generalize (2 * (cx * 10 ^ (py + DECIMAL_PLACES)) + cy * 10 ^ px) / (2 * (cy * 10 ^ px)) = k
      at hlo hhi
    have hlo' : (2 * ((cy : ℚ) * 10 ^ px) * k : ℚ) ≤
        2 * ((cx : ℚ) * (10 ^ py * 10 ^ DECIMAL_PLACES)) + (cy : ℚ) * 10 ^ px := by
      rw [← pow_add]
      exact_mod_cast hlo
    have hhi' : (2 * ((cx : ℚ) * (10 ^ py * 10 ^ DECIMAL_PLACES)) + (cy : ℚ) * 10 ^ px : ℚ) <
        2 * ((cy : ℚ) * 10 ^ px) * k + 2 * ((cy : ℚ) * 10 ^ px) := by
      rw [← pow_add]
      exact_mod_cast hhi
    have hP : (0 : ℚ) < 10 ^ px := by positivity
    have hQ : (0 : ℚ) < 10 ^ py := by positivity
    have hT : (0 : ℚ) < 10 ^ DECIMAL_PLACES := by positivity
    generalize (10 : ℚ) ^ px = P at hlo' hhi' hP
    generalize (10 : ℚ) ^ py = Q at hlo' hhi' hQ
    generalize (10 : ℚ) ^ DECIMAL_PLACES = T at hlo' hhi' hT
    have e1 : (k : ℚ) / T * ((cy : ℚ) / Q) - (cx : ℚ) / P =
        (2 * ((cy : ℚ) * P) * k - 2 * ((cx : ℚ) * (Q * T))) / (2 * T * Q * P) := by
      field_simp
      ring
    have e2 : ((cy : ℚ) / Q) / (2 * T) = ((cy : ℚ) * P) / (2 * T * Q * P) := by
      field_simp
      ring
    have hden : (0 : ℚ) < 2 * T * Q * P := by positivity
    rw [e1, e2, abs_div, abs_of_pos hden]
    apply div_le_div_of_nonneg_right _ hden.le
    rw [abs_le]
    constructor <;> linarith
  · intro j hj
    apply round_exact _ _ j hd
    have hP : (10 : ℚ) ^ px ≠ 0 := by positivity
    have hQ : (10 : ℚ) ^ py ≠ 0 := by positivity
    have hT : (10 : ℚ) ^ DECIMAL_PLACES ≠ 0 := by positivity
    have h : ((j * (cy * 10 ^ px) : Nat) : ℚ) = ((cx * 10 ^ (py + DECIMAL_PLACES) : Nat) : ℚ) := by
      push_cast
      rw [pow_add]
      field_simp at hj
      linarith
    exact_mod_cast h

/-- C9, as the code has it: with a target currency and equal base and rate currencies,
`normalizeQuantity` returns the rate unchanged and the quantity in the target currency with
amount `baseValue.amount.div(rate.amount)`.  For finite amounts and a nonzero rate that
amount is a number of `DECIMAL_PLACES` decimal places, within half a unit of the last place
of the true quotient, and it is the true quotient whenever that has no more than
`DECIMAL_PLACES` decimal places. -/
theorem normalizeQuantity_converts (o : OrderSpec) (t : String)
    (ht : o.quantity.targetCurrency = some t)
    (hc : o.quantity.baseValue.currency = o.rate.currency) :
    normalizeQuantity o =
      Except.ok { rate := o.rate,
                  quantity := { currency := t,
                                amount := o.quantity.baseValue.amount.div o.rate.amount } } ∧
    ∀ cx px cy py : Nat, o.quantity.baseValue.amount = BigNumber.finite cx px →
      o.rate.amount = BigNumber.finite cy py → cy ≠ 0 →
      ∃ k : Nat,
        o.quantity.baseValue.amount.div o.rate.amount = BigNumber.finite k DECIMAL_PLACES ∧
        |(k : ℚ) / 10 ^ DECIMAL_PLACES * ((cy : ℚ) / 10 ^ py) - (cx : ℚ) / 10 ^ px| ≤
          ((cy : ℚ) / 10 ^ py) / (2 * 10 ^ DECIMAL_PLACES) ∧
        (∀ j : Nat, (j : ℚ) / 10 ^ DECIMAL_PLACES * ((cy : ℚ) / 10 ^ py) = (cx : ℚ) / 10 ^ px →
          k = j) := by
  constructor
  · simp only [normalizeQuantity, ht, hc, if_true]
    rfl
  · intro cx px cy py hx hy hy0
    rw [hx, hy]
    exact div_rounds cx px cy py hy0

/-- C9 on the example of the spec: 500 USD in BTC at 50 USD gives 10 BTC, held as
`1000000000000000000000 / 10 ^ 20`. -/
theorem normalizeQuantity_converts_witness :
    normalizeQuantity
      { quantity := { baseValue := { currency := "USD", amount := BigNumber.finite 500 0 },
                      targetCurrency := some "BTC" },
        rate := { currency := "USD", amount := BigNumber.finite 50 0 } } =
      Except.ok { rate := { currency := "USD", amount := BigNumber.finite 50 0 },
                  quantity := { currency := "BTC",
                                amount := BigNumber.finite 1000000000000000000000 20 } } :=
  (normalizeQuantity_converts
    { quantity := { baseValue := { currency := "USD", amount := BigNumber.finite 500 0 },
                    targetCurrency := some "BTC" },
      rate := { currency := "USD", amount := BigNumber.finite 50 0 } } "BTC" rfl rfl).1

/-- C9 as stated fails on 1 USD in BTC at 3 USD: the amount returned is
`0.33333333333333333333`, and no `BigNumber` at all is an exact third. -/
theorem normalizeQuantity_one_third_inexact :
    normalizeQuantity
      { quantity := { baseValue := { currency := "USD", amount := BigNumber.finite 1 0 },
                      targetCurrency := some "BTC" },
        rate := { currency := "USD", amount := BigNumber.finite 3 0 } } =
      Except.ok { rate := { currency := "USD", amount := BigNumber.finite 3 0 },
                  quantity := { currency := "BTC",
                                amount := BigNumber.finite 33333333333333333333 20 } } ∧
    ¬ ExactQuotient (BigNumber.finite 33333333333333333333 20) (BigNumber.finite 1 0)
        (BigNumber.finite 3 0) ∧
    (∀ a : BigNumber, ¬ ExactQuotient a (BigNumber.finite 1 0) (BigNumber.finite 3 0)) :=
  ⟨rfl, no_exact_third _, no_exact_third⟩

/-- C10, as the code has it: `normalizeQuantity` fails exactly when the order has a target
currency and the currency of its base value differs from the currency of its rate, and the
object thrown is then the built-in `Error` with message
`Currency of amount to buy/sell must match currency of the target rate`. -/
theorem normalizeQuantity_fails_iff (o : OrderSpec) (e : Thrown) :
    normalizeQuantity o = Except.error e ↔
      ((∃ t, o.quantity.targetCurrency = some t) ∧
        o.quantity.baseValue.currency ≠ o.rate.currency ∧
        e = newError "Currency of amount to buy/sell must match currency of the target rate") := by
  rcases o with ⟨⟨bv, tc⟩, rate⟩
  cases tc with
  | none =>
    simp only [normalizeQuantity, pure, Except.pure]
    constructor
    · intro h; cases h
    · rintro ⟨⟨t, h⟩, -⟩; cases h
  | some t =>
    by_cases hc : bv.currency = rate.currency
    · simp only [normalizeQuantity, hc, if_true, pure, Except.pure]
      constructor
      · intro h; cases h
      · rintro ⟨-, h, -⟩; exact absurd rfl h
    · simp only [normalizeQuantity, hc, if_false, throw, throwThe, MonadExceptOf.throw]
      constructor
      · intro h
        cases h
        exact ⟨⟨t, rfl⟩, hc, rfl⟩
      · rintro ⟨-, -, rfl⟩; rfl

/-- C10 as stated fails on the example of the spec (base currency BTC, rate currency USD,
target ETH): the object thrown is a built-in `Error`, not a `ParsingError`. -/
theorem normalizeQuantity_mismatch_not_parsing_error :
    normalizeQuantity
      { quantity := { baseValue := { currency := "BTC", amount := BigNumber.finite 1 0 },
                      targetCurrency := some "ETH" },
        rate := { currency := "USD", amount := BigNumber.finite 50 0 } } =
      Except.error
        (newError "Currency of amount to buy/sell must match currency of the target rate") ∧
    ¬ ∃ e, normalizeQuantity
        { quantity := { baseValue := { currency := "BTC", amount := BigNumber.finite 1 0 },
                        targetCurrency := some "ETH" },
          rate := { currency := "USD", amount := BigNumber.finite 50 0 } } = Except.error e ∧
      e.kind = ErrorKind.ParsingError := by
  refine ⟨rfl, ?_⟩
  rintro ⟨e, he, hk⟩
  have h : normalizeQuantity
      { quantity := { baseValue := { currency := "BTC", amount := BigNumber.finite 1 0 },
                      targetCurrency := some "ETH" },
        rate := { currency := "USD", amount := BigNumber.finite 50 0 } } =
      Except.error
        (newError "Currency of amount to buy/sell must match currency of the target rate") := rfl
  rw [h] at he
  cases he
  simp [newError] at hk

/-- C11: an order spec without a target currency is never rejected by `normalizeQuantity`:
the result is the rate and the base value as given, whatever their currencies and
amounts. -/
theorem normalizeQuantity_passes_through (o : OrderSpec)
    (h : o.quantity.targetCurrency = none) :
    normalizeQuantity o = Except.ok { rate := o.rate, quantity := o.quantity.baseValue } := by
  simp only [normalizeQuantity, h]
  rfl

/-- C11 on 20 BTC at 50 USD (currencies differ) and on 20 USD at 50 USD (currencies
equal). -/
theorem normalizeQuantity_passes_through_witness :
    normalizeQuantity
      { quantity := { baseValue := { currency := "BTC", amount := BigNumber.finite 20 0 },
                      targetCurrency := none },
        rate := { currency := "USD", amount := BigNumber.finite 50 0 } } =
      Except.ok { rate := { currency := "USD", amount := BigNumber.finite 50 0 },
                  quantity := { currency := "BTC", amount := BigNumber.finite 20 0 } } ∧
    normalizeQuantity
      { quantity := { baseValue := { currency := "USD", amount := BigNumber.finite 20 0 },
                      targetCurrency := none },
        rate := { currency := "USD", amount := BigNumber.finite 50 0 } } =
      Except.ok { rate := { currency := "USD", amount := BigNumber.finite 50 0 },
                  quantity := { currency := "USD", amount := BigNumber.finite 20 0 } } :=
  ⟨normalizeQuantity_passes_through _ rfl, normalizeQuantity_passes_through _ rfl⟩

/-! ## Parsing and normalising end to end -/

theorem numeral_ne_at (ip fp : List Char) (hip : ip ≠ [])
    (hipd : ∀ c ∈ ip, c.isDigit = true) (hfpd : ∀ c ∈ fp, c.isDigit = true) :
    numeral ip fp ≠ "@" := by
  intro h
  have h1 := isNumeric_numeral ip fp hip hipd hfpd
  rw [h] at h1
  exact absurd h1 (by decide)

theorem numericGrammar_ne_at (n : String) (h : NumericGrammar n) : n ≠ "@" := by
  obtain ⟨ip, fp, hip, hipd, hfpd, rfl⟩ := h
  exact numeral_ne_at ip fp hip hipd hfpd

theorem currency_ne_at (c : String) (h : c ∈ currencySet) : c ≠ "@" := by
  rintro rfl
  exact absurd h (by decide)

theorem parseOrderSpec_split (pre post : List String) (hat : "@" ∉ pre) (hpre : pre ≠ [])
    (hpost : post ≠ []) :
    parseOrderSpec (pre ++ "@" :: post) =
      (parseAmount pre >>= fun quantity =>
        parseValue post >>= fun rate => pure { quantity := quantity, rate := rate }) := by
  have hi : indexOf (pre ++ "@" :: post) "@" = (pre.length : Int) := indexOf_append "@" pre post hat
  have hlen : 0 < pre.length := List.length_pos.2 hpre
  have hlen2 : 0 < post.length := List.length_pos.2 hpost
  have hl : ((pre ++ "@" :: post).length : Int) = (pre.length : Int) + (post.length : Int) + 1 := by
    simp only [List.length_append, List.length_cons]
    push_cast
    ring
  have hc : ¬ ((pre.length : Int) = -1 ∨ (pre.length : Int) = 0 ∨
      (pre.length : Int) = ((pre ++ "@" :: post).length : Int) - 1) := by
    rw [hl]
    omega
  have ht : List.take pre.length (pre ++ "@" :: post) = pre := List.take_left' rfl
  have hd : List.drop (pre.length + 1) (pre ++ "@" :: post) = post := by
    have e : pre ++ "@" :: post = (pre ++ ["@"]) ++ post := by simp
    rw [e]
    exact List.drop_left' (by simp)
  simp only [parseOrderSpec, hi, hc, if_false, Int.toNat_ofNat, ht, hd]

theorem parseAmount_two (a b : String) :
    parseAmount [a, b] =
      (parseValue [a, b] >>= fun baseValue =>
        pure { baseValue := baseValue, targetCurrency := none }) := by
  simp [parseAmount]

theorem parseAmount_four_eq (a b c d : String) :
    parseAmount [a, b, c, d] =
      (parseValue [a, b] >>= fun baseValue =>
        parseCurrency d >>= fun targetCurrency =>
          pure { baseValue := baseValue, targetCurrency := some targetCurrency }) := by
  simp [parseAmount, item]

theorem parseValue_numeral (ip fp : List Char) (C : String) (hip : ip ≠ [])
    (hipd : ∀ c ∈ ip, c.isDigit = true) (hfpd : ∀ c ∈ fp, c.isDigit = true)
    (hC : C ∈ currencySet) :
    parseValue [numeral ip fp, C] =
      Except.ok { currency := C,
                  amount := BigNumber.finite (digitsValue (ip ++ fp)) fp.length } := by
  rw [parseValue_pair, if_pos (isNumeric_numeral ip fp hip hipd hfpd), if_pos hC,
    ofString_numeral ip fp hipd]

theorem value_numeral (ip fp : List Char) :
    (BigNumber.finite (digitsValue (ip ++ fp)) fp.length).value =
      some (intValue ip + fracValue fp) := by
  simp only [BigNumber.value, digitsValue_append, intValue_eq, fracValue_eq]
  have h : (10 : ℚ) ^ fp.length ≠ 0 := by positivity
  push_cast
  field_simp

theorem value_numeral_eq (ip fp : List Char) :
    ((digitsValue (ip ++ fp) : Nat) : ℚ) / 10 ^ fp.length = intValue ip + fracValue fp := by
  have h := value_numeral ip fp
  simpa [BigNumber.value] using h

/-- C12: for numeric tokens `N`, `M` and currencies `C`, `D` of the fixed set,
`parseOrderSpec` on `N C @ M D` succeeds with base value `C`, `N`, no target currency and
rate `D`, `M` (amounts holding exactly the values the tokens denote), and
`normalizeQuantity` of that result is the same rate and quantity, unchanged. -/
theorem parse_then_normalize_plain (ipN fpN ipM fpM : List Char) (C D : String)
    (hN : ipN ≠ []) (hNi : ∀ c ∈ ipN, c.isDigit = true) (hNf : ∀ c ∈ fpN, c.isDigit = true)
    (hM : ipM ≠ []) (hMi : ∀ c ∈ ipM, c.isDigit = true) (hMf : ∀ c ∈ fpM, c.isDigit = true)
    (hC : C ∈ currencySet) (hD : D ∈ currencySet) :
    ∃ n m : BigNumber,
      n.value = some (intValue ipN + fracValue fpN) ∧
      m.value = some (intValue ipM + fracValue fpM) ∧
      parseOrderSpec [numeral ipN fpN, C, "@", numeral ipM fpM, D] =
        Except.ok { quantity := { baseValue := { currency := C, amount := n },
                                  targetCurrency := none },
                    rate := { currency := D, amount := m } } ∧
      normalizeQuantity
        { quantity := { baseValue := { currency := C, amount := n }, targetCurrency := none },
          rate := { currency := D, amount := m } } =
        Except.ok { rate := { currency := D, amount := m },
                    quantity := { currency := C, amount := n } } := by
  refine ⟨_, _, value_numeral ipN fpN, value_numeral ipM fpM, ?_, rfl⟩
  have hat : "@" ∉ [numeral ipN fpN, C] := by
    simp only [List.mem_cons, List.mem_singleton, List.not_mem_nil, or_false, not_or]
    exact ⟨(numeral_ne_at ipN fpN hN hNi hNf).symm, (currency_ne_at C hC).symm⟩
  have h := parseOrderSpec_split [numeral ipN fpN, C] [numeral ipM fpM, D] hat (by simp)
    (by simp)
  simp only [List.cons_append, List.nil_append] at h
  rw [h, parseAmount_two, parseValue_numeral ipN fpN C hN hNi hNf hC,
    parseValue_numeral ipM fpM D hM hMi hMf hD]
  rfl

/-- C12 on the example of the spec, `20 BTC @ 50 USD`. -/
theorem parse_then_normalize_plain_witness :
    ∃ n m : BigNumber,
      n.value = some (intValue ['2', '0'] + fracValue []) ∧
      m.value = some (intValue ['5', '0'] + fracValue []) ∧
      parseOrderSpec [numeral ['2', '0'] [], "BTC", "@", numeral ['5', '0'] [], "USD"] =
        Except.ok { quantity := { baseValue := { currency := "BTC", amount := n },
                                  targetCurrency := none },
                    rate := { currency := "USD", amount := m } } ∧
      normalizeQuantity
        { quantity := { baseValue := { currency := "BTC", amount := n },
                        targetCurrency := none },
          rate := { currency := "USD", amount := m } } =
        Except.ok { rate := { currency := "USD", amount := m },
                    quantity := { currency := "BTC", amount := n } } :=
  parse_then_normalize_plain ['2', '0'] [] ['5', '0'] [] "BTC" "USD"
    (by decide) (by decide) (by decide) (by decide) (by decide) (by decide) (by decide)
    (by decide)

theorem no_third_value (a : BigNumber) : a.value ≠ some (1 / 3) := by
  intro h
  refine no_exact_third a ⟨1 / 3, 3, 1, h, ?_, ?_, ?_⟩
  · simp [BigNumber.value]
  · simp [BigNumber.value]
  · norm_num

/-- C13, as the code has it: for numeric tokens `N`, `M` with `M` of nonzero value and
currencies `C`, `T` of the fixed set, `parseOrderSpec` on `N C in T @ M C` succeeds with
base value `C`, `N`, target currency `T` and rate `C`, `M`, and `normalizeQuantity` of that
result is the rate unchanged and the quantity in `T` with amount `N.div(M)`: a number of
`DECIMAL_PLACES` decimal places within half a unit of the last place of `N / M`, and equal
to `N / M` whenever that has no more than `DECIMAL_PLACES` decimal places. -/
theorem parse_then_normalize_target (ipN fpN ipM fpM : List Char) (C T : String)
    (hN : ipN ≠ []) (hNi : ∀ c ∈ ipN, c.isDigit = true) (hNf : ∀ c ∈ fpN, c.isDigit = true)
    (hM : ipM ≠ []) (hMi : ∀ c ∈ ipM, c.isDigit = true) (hMf : ∀ c ∈ fpM, c.isDigit = true)
    (hM0 : intValue ipM + fracValue fpM ≠ 0)
    (hC : C ∈ currencySet) (hT : T ∈ currencySet) :
    ∃ (n m : BigNumber) (k : Nat),
      n.value = some (intValue ipN + fracValue fpN) ∧
      m.value = some (intValue ipM + fracValue fpM) ∧
      parseOrderSpec [numeral ipN fpN, C, "in", T, "@", numeral ipM fpM, C] =
        Except.ok { quantity := { baseValue := { currency := C, amount := n },
                                  targetCurrency := some T },
                    rate := { currency := C, amount := m } } ∧
      normalizeQuantity
        { quantity := { baseValue := { currency := C, amount := n },
                        targetCurrency := some T },
          rate := { currency := C, amount := m } } =
        Except.ok { rate := { currency := C, amount := m },
                    quantity := { currency := T, amount := n.div m } } ∧
      n.div m = BigNumber.finite k DECIMAL_PLACES ∧
      |(k : ℚ) / 10 ^ DECIMAL_PLACES * (intValue ipM + fracValue fpM) -
          (intValue ipN + fracValue fpN)| ≤
        (intValue ipM + fracValue fpM) / (2 * 10 ^ DECIMAL_PLACES) ∧
      (∀ j : Nat, (j : ℚ) / 10 ^ DECIMAL_PLACES * (intValue ipM + fracValue fpM) =
          intValue ipN + fracValue fpN → k = j) := by
  have hcy : digitsValue (ipM ++ fpM) ≠ 0 := by
    intro h0
    apply hM0
    rw [← value_numeral_eq, h0]
    simp
  obtain ⟨k, hk, hbound, hexact⟩ :=
    div_rounds (digitsValue (ipN ++ fpN)) fpN.length (digitsValue (ipM ++ fpM)) fpM.length hcy
  rw [value_numeral_eq, value_numeral_eq] at hbound
  simp only [value_numeral_eq] at hexact
  refine ⟨_, _, k, value_numeral ipN fpN, value_numeral ipM fpM, ?_, ?_, hk, hbound, hexact⟩
  · have hat : "@" ∉ [numeral ipN fpN, C, "in", T] := by
      simp only [List.mem_cons, List.mem_singleton, List.not_mem_nil, or_false, not_or]
      exact ⟨(numeral_ne_at ipN fpN hN hNi hNf).symm, (currency_ne_at C hC).symm, by decide,
        (currency_ne_at T hT).symm⟩
    have h := parseOrderSpec_split [numeral ipN fpN, C, "in", T] [numeral ipM fpM, C] hat
      (by simp) (by simp)
    simp only [List.cons_append, List.nil_append] at h
    rw [h, parseAmount_four_eq, parseValue_numeral ipN fpN C hN hNi hNf hC,
      parseValue_numeral ipM fpM C hM hMi hMf hC, parseCurrency_of_mem T hT]
    rfl
  · simp [normalizeQuantity]
    rfl

/-- C13 on the example of the spec, `500 USD in BTC @ 50 USD`: the amount returned is
`500.div(50)`, held as `1000000000000000000000 / 10 ^ 20`, that is 10. -/
theorem parse_then_normalize_target_witness :
    ∃ (n m : BigNumber) (k : Nat),
      n.value = some (intValue ['5', '0', '0'] + fracValue []) ∧
      m.value = some (intValue ['5', '0'] + fracValue []) ∧
      parseOrderSpec [numeral ['5', '0', '0'] [], "USD", "in", "BTC", "@",
          numeral ['5', '0'] [], "USD"] =
        Except.ok { quantity := { baseValue := { currency := "USD", amount := n },
                                  targetCurrency := some "BTC" },
                    rate := { currency := "USD", amount := m } } ∧
      normalizeQuantity
        { quantity := { baseValue := { currency := "USD", amount := n },
                        targetCurrency := some "BTC" },
          rate := { currency := "USD", amount := m } } =
        Except.ok { rate := { currency := "USD", amount := m },
                    quantity := { currency := "BTC", amount := n.div m } } ∧
      n.div m = BigNumber.finite k DECIMAL_PLACES ∧
      |(k : ℚ) / 10 ^ DECIMAL_PLACES * (intValue ['5', '0'] + fracValue []) -
          (intValue ['5', '0', '0'] + fracValue [])| ≤
        (intValue ['5', '0'] + fracValue []) / (2 * 10 ^ DECIMAL_PLACES) ∧
      (∀ j : Nat, (j : ℚ) / 10 ^ DECIMAL_PLACES * (intValue ['5', '0'] + fracValue []) =
          intValue ['5', '0', '0'] + fracValue [] → k = j) :=
  parse_then_normalize_target ['5', '0', '0'] [] ['5', '0'] [] "USD" "BTC"
    (by decide) (by decide) (by decide) (by decide) (by decide) (by decide)
    (by simp [intValue, fracValue, digitValue]) (by decide) (by decide)

/-- C13 as stated fails on `1 USD in BTC @ 3 USD`: parsing and normalising gives the amount
`0.33333333333333333333`, which is not `1 / 3`, and no `BigNumber` is. -/
theorem parse_then_normalize_one_third :
    (parseOrderSpec ["1", "USD", "in", "BTC", "@", "3", "USD"] >>= normalizeQuantity) =
      Except.ok { rate := { currency := "USD", amount := BigNumber.finite 3 0 },
                  quantity := { currency := "BTC",
                                amount := BigNumber.finite 33333333333333333333 20 } } ∧
    (BigNumber.finite 33333333333333333333 20).value ≠ some (1 / 3) ∧
    (∀ a : BigNumber, a.value ≠ some (1 / 3)) :=
  ⟨rfl, no_third_value _, no_third_value⟩

/-! ## Properties of the symbol resolver -/

theorem findSymbol_ok_iff (V : List String) (q p : String) (r : SymbolResolution) :
    findSymbol V q p = Except.ok r ↔
      (toLowerCase q ++ toLowerCase p ∈ V ∧
        r = { symbol := toLowerCase q ++ toLowerCase p, invert := false }) ∨
      (toLowerCase q ++ toLowerCase p ∉ V ∧ toLowerCase p ++ toLowerCase q ∈ V ∧
        r = { symbol := toLowerCase p ++ toLowerCase q, invert := true }) := by
  by_cases h1 : toLowerCase q ++ toLowerCase p ∈ V
  · rw [findSymbol_direct V q p h1]
    constructor
    · intro h
      cases h
      exact Or.inl ⟨h1, rfl⟩
    · rintro (⟨-, rfl⟩ | ⟨h, -⟩)
      · rfl
      · exact absurd h1 h
  · by_cases h2 : toLowerCase p ++ toLowerCase q ∈ V
    · rw [findSymbol_inverted V q p h1 h2]
      constructor
      · intro h
        cases h
        exact Or.inr ⟨h1, h2, rfl⟩
      · rintro (⟨h, -⟩ | ⟨-, -, rfl⟩)
        · exact absurd h h1
        · rfl
    · rw [findSymbol_unsupported V q p h1 h2]
      constructor
      · intro h
        cases h
      · rintro (⟨h, -⟩ | ⟨-, h, -⟩)
        · exact absurd h h1
        · exact absurd h h2

/-- C14: whenever `findSymbol(q, p)` succeeds, the symbol returned is one of the valid
symbols; it is `lower(q) + lower(p)` when `invert` is false and `lower(p) + lower(q)` when
`invert` is true. -/
theorem findSymbol_result_valid (V : List String) (q p : String) (r : SymbolResolution)
    (h : findSymbol V q p = Except.ok r) :
    r.symbol ∈ V ∧
    (r.invert = false → r.symbol = toLowerCase q ++ toLowerCase p) ∧
    (r.invert = true → r.symbol = toLowerCase p ++ toLowerCase q) := by
  rcases (findSymbol_ok_iff V q p r).1 h with ⟨h1, rfl⟩ | ⟨-, h2, rfl⟩
  · exact ⟨h1, fun _ => rfl, fun h => (by cases h)⟩
  · exact ⟨h2, fun h => (by cases h), fun _ => rfl⟩

/-- C14 on `USD`/`BTC` with `btcusd` valid: the result is `btcusd`, inverted. -/
theorem findSymbol_result_valid_witness :
    "btcusd" ∈ ["btcusd", "ethusd"] ∧
    ((true = false) → "btcusd" = toLowerCase "USD" ++ toLowerCase "BTC") ∧
    ((true = true) → "btcusd" = toLowerCase "BTC" ++ toLowerCase "USD") :=
  findSymbol_result_valid ["btcusd", "ethusd"] "USD" "BTC"
    { symbol := "btcusd", invert := true } rfl

theorem sameLetter_toLower (c d : Char) (h : sameLetter c d = true) :
    c.toLower = d.toLower := by
  simp only [sameLetter, Bool.or_eq_true, Bool.and_eq_true, beq_iff_eq, decide_eq_true_eq] at h
  rcases h with (h | ⟨⟨h1, h2⟩, h3⟩) | ⟨⟨h1, h2⟩, h3⟩
  · rw [h]
  · have hd : ¬ (d.toNat ≥ 65 ∧ d.toNat ≤ 90) := by omega
    have hc : c.toNat ≥ 65 ∧ c.toNat ≤ 90 := ⟨h1, h2⟩
    simp only [Char.toLower, hc, hd, and_self, if_true, if_false]
    rw [← h3, Char.ofNat_toNat]
  · have hc : ¬ (c.toNat ≥ 65 ∧ c.toNat ≤ 90) := by omega
    have hd : d.toNat ≥ 65 ∧ d.toNat ≤ 90 := ⟨h1, h2⟩
    simp only [Char.toLower, hc, hd, and_self, if_true, if_false]
    rw [← h3, Char.ofNat_toNat]

theorem sameLetters_map_toLower (s t : List Char) (h : sameLetters s t = true) :
    s.map Char.toLower = t.map Char.toLower := by
  induction s generalizing t with
  | nil =>
    cases t with
    | nil => rfl
    | cons d ds => simp [sameLetters] at h
  | cons c cs ih =>
    cases t with
    | nil => simp [sameLetters] at h
    | cons d ds =>
      simp only [sameLetters, Bool.and_eq_true] at h
      simp only [List.map_cons, sameLetter_toLower c d h.1, ih ds h.2]

theorem toLowerCase_caseVariant (s t : String) (h : CaseVariant s t) :
    toLowerCase s = toLowerCase t := by
  simp only [toLowerCase, sameLetters_map_toLower s.data t.data h]

/-- C15: when `q'` differs from `q` and `p'` from `p` only in letter case,
`findSymbol(q', p')` succeeds exactly when `findSymbol(q, p)` succeeds, and with the same
symbol and the same `invert`. -/
theorem findSymbol_case_insensitive (V : List String) (q p q' p' : String)
    (hq : CaseVariant q q') (hp : CaseVariant p p') :
    ((∃ r, findSymbol V q' p' = Except.ok r) ↔ (∃ r, findSymbol V q p = Except.ok r)) ∧
    (∀ r, findSymbol V q' p' = Except.ok r ↔ findSymbol V q p = Except.ok r) := by
  have h : ∀ r, findSymbol V q' p' = Except.ok r ↔ findSymbol V q p = Except.ok r := by
    intro r
    rw [findSymbol_ok_iff, findSymbol_ok_iff, toLowerCase_caseVariant q q' hq,
      toLowerCase_caseVariant p p' hp]
  exact ⟨⟨fun ⟨r, hr⟩ => ⟨r, (h r).1 hr⟩, fun ⟨r, hr⟩ => ⟨r, (h r).2 hr⟩⟩, h⟩

/-- C15 on `BTC`/`USD` against `btc`/`Usd`. -/
theorem findSymbol_case_insensitive_witness :
    ((∃ r, findSymbol ["btcusd"] "btc" "Usd" = Except.ok r) ↔
      (∃ r, findSymbol ["btcusd"] "BTC" "USD" = Except.ok r)) ∧
    (∀ r, findSymbol ["btcusd"] "btc" "Usd" = Except.ok r ↔
      findSymbol ["btcusd"] "BTC" "USD" = Except.ok r) :=
  findSymbol_case_insensitive ["btcusd"] "BTC" "USD" "btc" "Usd" rfl rfl

/-- C19: `findSymbol(q, p)` succeeds exactly when `findSymbol(p, q)` does; and when exactly
one of `lower(q) + lower(p)`, `lower(p) + lower(q)` is a valid symbol, the two calls return
that same symbol with opposite `invert` flags. -/
theorem findSymbol_symmetric (V : List String) (q p : String) :
    ((∃ r, findSymbol V q p = Except.ok r) ↔ (∃ r, findSymbol V p q = Except.ok r)) ∧
    ((toLowerCase q ++ toLowerCase p ∈ V ∧ toLowerCase p ++ toLowerCase q ∉ V) ∨
      (toLowerCase q ++ toLowerCase p ∉ V ∧ toLowerCase p ++ toLowerCase q ∈ V) →
      ∃ symbol invert,
        findSymbol V q p = Except.ok { symbol := symbol, invert := invert } ∧
        findSymbol V p q = Except.ok { symbol := symbol, invert := !invert }) := by
  constructor
  · by_cases h1 : toLowerCase q ++ toLowerCase p ∈ V
    · by_cases h2 : toLowerCase p ++ toLowerCase q ∈ V
      · exact ⟨fun _ => ⟨_, findSymbol_direct V p q h2⟩, fun _ => ⟨_, findSymbol_direct V q p h1⟩⟩
      · exact ⟨fun _ => ⟨_, findSymbol_inverted V p q h2 h1⟩,
          fun _ => ⟨_, findSymbol_direct V q p h1⟩⟩
    · by_cases h2 : toLowerCase p ++ toLowerCase q ∈ V
      · exact ⟨fun _ => ⟨_, findSymbol_direct V p q h2⟩,
          fun _ => ⟨_, findSymbol_inverted V q p h1 h2⟩⟩
      · rw [findSymbol_unsupported V q p h1 h2, findSymbol_unsupported V p q h2 h1]
        exact ⟨fun ⟨_, h⟩ => (by cases h), fun ⟨_, h⟩ => (by cases h)⟩
  · rintro (⟨h1, h2⟩ | ⟨h1, h2⟩)
    · exact ⟨_, false, findSymbol_direct V q p h1, findSymbol_inverted V p q h2 h1⟩
    · exact ⟨_, true, findSymbol_inverted V q p h1 h2, findSymbol_direct V p q h2⟩

/-- C19 on `BTC`/`USD` with only `btcusd` valid: both orders resolve to `btcusd`, the
second inverted. -/
theorem findSymbol_symmetric_witness :
    ∃ symbol invert,
      findSymbol ["btcusd"] "BTC" "USD" = Except.ok { symbol := symbol, invert := invert } ∧
      findSymbol ["btcusd"] "USD" "BTC" = Except.ok { symbol := symbol, invert := !invert } :=
  (findSymbol_symmetric ["btcusd"] "BTC" "USD").2 (Or.inl ⟨by decide, by decide⟩)

/-! ## The errors of the value parser -/

theorem intercalate_go_eq (acc : String) (l : List String) :
    String.intercalate.go acc " " l =
      match l with
      | [] => acc
      | b :: rest => acc ++ " " ++ spaced (b :: rest) := by
  induction l generalizing acc with
  | nil => rfl
  | cons b rest ih =>
    simp only [String.intercalate.go]
    rw [ih]
    cases rest with
    | nil => rfl
    | cons c rest2 =>
      simp only [spaced, String.append_assoc]

theorem join_eq_spaced (spec : List String) : join spec = spaced spec := by
  cases spec with
  | nil => rfl
  | cons a rest =>
    simp only [join, String.intercalate]
    rw [intercalate_go_eq]
    cases rest with
    | nil => rfl
    | cons b rest2 => rfl

/-- C16: on a two-token list whose first token is not of the numeric grammar, `parseValue`
fails with the `ParsingError` `The 'amount' part of the value must be numeric` whose input
is that first token, whatever the second token is; the `ParsingError`
`Unrecognized currency ...` is thrown only on a two-token list whose first token is numeric
and whose second token is not a supported currency, with the second token as input; and on
a list of any other length the failure is a `ParsingError` whose input is the tokens joined
by single spaces. -/
theorem parseValue_error_contexts (spec : List String) :
    (∀ n c, spec = [n, c] → ¬ NumericGrammar n →
      parseValue spec = Except.error (newParsingError
        "The 'amount' part of the value must be numeric" (Input.text n))) ∧
    (∀ e, parseValue spec = Except.error e →
      e.message = "Unrecognized currency - supported options are USD, BTC, BCH, ETH" →
      ∃ n c, spec = [n, c] ∧ NumericGrammar n ∧ c ∉ currencySet ∧
        e.kind = ErrorKind.ParsingError ∧ e.input = some (Input.text c)) ∧
    (spec.length ≠ 2 →
      ∃ e, parseValue spec = Except.error e ∧ e.kind = ErrorKind.ParsingError ∧
        e.input = some (Input.text (spaced spec))) := by
  refine ⟨?_, ?_, ?_⟩
  · rintro n c rfl hn
    rw [parseValue_pair, if_neg (fun h => hn ((isNumeric_iff n).1 h))]
  · intro e he hm
    match spec, he with
    | [], he =>
      rw [parseValue_short [] (by simp)] at he
      cases he
      simp only [newParsingError] at hm
      exact absurd hm (by decide)
    | [a], he =>
      rw [parseValue_short [a] (by simp)] at he
      cases he
      simp only [newParsingError] at hm
      exact absurd hm (by decide)
    | a :: b :: c :: rest, he =>
      rw [parseValue_long (a :: b :: c :: rest) (by simp)] at he
      cases he
      simp only [newParsingError] at hm
      exact absurd hm (by decide)
    | [n, c], he =>
      rw [parseValue_pair] at he
      by_cases hn : isNumeric n = true
      · by_cases hc : c ∈ currencySet
        · rw [if_pos hn, if_pos hc] at he
          cases he
        · rw [if_pos hn, if_neg hc] at he
          cases he
          exact ⟨n, c, rfl, (isNumeric_iff n).1 hn, hc, rfl, rfl⟩
      · rw [if_neg hn] at he
        cases he
        simp only [newParsingError] at hm
        exact absurd hm (by decide)
  · intro hlen
    by_cases h : spec.length < 2
    · exact ⟨_, parseValue_short spec h, rfl, by rw [join_eq_spaced]; rfl⟩
    · exact ⟨_, parseValue_long spec (by omega), rfl, by rw [join_eq_spaced]; rfl⟩

/-- C16 on concrete tokens: `x foo` (neither token valid) reports the amount, `5 foo`
reports the currency, and `5 USD now` reports the joined tokens. -/
theorem parseValue_error_contexts_witness :
    parseValue ["x", "foo"] = Except.error (newParsingError
      "The 'amount' part of the value must be numeric" (Input.text "x")) ∧
    parseValue ["5", "foo"] = Except.error (newParsingError
      "Unrecognized currency - supported options are USD, BTC, BCH, ETH" (Input.text "foo")) ∧
    (∃ e, parseValue ["5", "USD", "now"] = Except.error e ∧
      e.kind = ErrorKind.ParsingError ∧ e.input = some (Input.text (spaced ["5", "USD", "now"]))) ∧
    spaced ["5", "USD", "now"] = "5 USD now" :=
  ⟨(parseValue_error_contexts ["x", "foo"]).1 "x" "foo" rfl
      (fun h => absurd ((isNumeric_iff "x").2 h) (by decide)),
   rfl,
   (parseValue_error_contexts ["5", "USD", "now"]).2.2 (by decide),
   rfl⟩

/-! ## The fee cache -/

theorem getFees_cached {P : Type} (client : Nat → Invocation P) (p : P) (n : Nat) :
    getFees client { fees := some p, invocations := n } =
      (Attempt.follows p, { fees := some p, invocations := n }) := rfl

theorem getFeesCalls_cached {P : Type} (client : Nat → Invocation P) (p : P) (n count : Nat) :
    getFeesCalls client count { fees := some p, invocations := n } =
      (List.replicate count (Attempt.follows p), { fees := some p, invocations := n }) := by
  induction count with
  | zero => rfl
  | succ k ih => simp only [getFeesCalls, getFees_cached, ih, List.replicate_succ]

theorem getFeesCalls_fresh {P : Type} (client : Nat → Invocation P) (p : P)
    (h : client 0 = Invocation.promise p) (count : Nat) :
    getFeesCalls client (count + 1) FeeCache.fresh =
      (List.replicate (count + 1) (Attempt.follows p), { fees := some p, invocations := 1 }) := by
  have h1 : getFees client FeeCache.fresh =
      (Attempt.follows p, { fees := some p, invocations := 1 }) := by
    simp only [getFees, FeeCache.fresh, h]
  simp only [getFeesCalls, h1, getFeesCalls_cached, List.replicate_succ]

/-- C17, as the code has it: on one `getFees` instance whose first invocation of
`client.getMyNotionalVolume()` returns a promise `p`, any number of `getFees()` calls
invokes the client at most once (exactly once as soon as there is a call), every call hands
back a promise that follows `p`, and from the first call on the variable `fees` holds `p`
and is never cleared or replaced. -/
theorem getFees_memoizes {P : Type} (client : Nat → Invocation P) (p : P)
    (h : client 0 = Invocation.promise p) (count : Nat) :
    (getFeesCalls client count FeeCache.fresh).2.invocations ≤ 1 ∧
    (getFeesCalls client count FeeCache.fresh).1.length = count ∧
    (∀ r ∈ (getFeesCalls client count FeeCache.fresh).1, r = Attempt.follows p) ∧
    (0 < count →
      (getFeesCalls client count FeeCache.fresh).2.invocations = 1 ∧
      (getFeesCalls client count FeeCache.fresh).2.fees = some p) := by
  cases count with
  | zero =>
    refine ⟨by simp [getFeesCalls, FeeCache.fresh], rfl, ?_, fun h0 => absurd h0 (by decide)⟩
    intro r hr
    simp [getFeesCalls] at hr
  | succ k =>
    rw [getFeesCalls_fresh client p h k]
    refine ⟨le_refl 1, by simp, ?_, fun _ => ⟨rfl, rfl⟩⟩
    intro r hr
    exact List.eq_of_mem_replicate hr

/-- C17 on three calls against a client that returns promise number `n` on its invocation
number `n`: one invocation, and all three calls follow promise 0. -/
theorem getFees_memoizes_witness :
    (getFeesCalls (fun n => Invocation.promise n) 3 FeeCache.fresh).2.invocations ≤ 1 ∧
    (getFeesCalls (fun n => Invocation.promise n) 3 FeeCache.fresh).1.length = 3 ∧
    (∀ r ∈ (getFeesCalls (fun n => Invocation.promise n) 3 FeeCache.fresh).1,
      r = Attempt.follows 0) ∧
    (0 < 3 →
      (getFeesCalls (fun n => Invocation.promise n) 3 FeeCache.fresh).2.invocations = 1 ∧
      (getFeesCalls (fun n => Invocation.promise n) 3 FeeCache.fresh).2.fees = some 0) :=
  getFees_memoizes (fun n => Invocation.promise n) 0 rfl 3

theorem getFees_retries_after_throw {P : Type} (client : Nat → Invocation P) (e : Thrown)
    (h : client 0 = Invocation.throws e) :
    getFees client FeeCache.fresh =
      (Attempt.rejected e, { fees := none, invocations := 1 }) ∧
    (getFees client (getFees client FeeCache.fresh).2).2.invocations = 2 := by
  have h1 : getFees client FeeCache.fresh =
      (Attempt.rejected e, { fees := none, invocations := 1 }) := by
    simp only [getFees, FeeCache.fresh, h]
  refine ⟨h1, ?_⟩
  rw [h1]
  simp only [getFees]
  cases client 1 <;> rfl

/-- C17 as stated fails when an invocation of the client does not return a promise.  With
a client that returns `undefined`, or one that throws, two calls of `getFees()` invoke it
twice and nothing is cached; with a client that throws on its first invocation and returns
promise 7 on its second, the first call is rejected and the second follows promise 7, so
the two calls do not end alike. -/
theorem getFees_invokes_client_again :
    (getFeesCalls (fun _ => (Invocation.nullish : Invocation Nat)) 2
      FeeCache.fresh).2.invocations = 2 ∧
    (getFeesCalls (fun _ => (Invocation.nullish : Invocation Nat)) 2
      FeeCache.fresh).2.fees = none ∧
    (getFeesCalls (fun _ => (Invocation.throws (newError "offline") : Invocation Nat)) 2
      FeeCache.fresh).2.invocations = 2 ∧
    ¬ (getFeesCalls (fun _ => (Invocation.throws (newError "offline") : Invocation Nat)) 2
      FeeCache.fresh).2.invocations ≤ 1 ∧
    (getFeesCalls
      (fun n => if n = 0 then Invocation.throws (newError "offline") else Invocation.promise 7)
      2 FeeCache.fresh).1 =
      [Attempt.rejected (newError "offline"), Attempt.follows 7] ∧
    (getFeesCalls
      (fun n => if n = 0 then Invocation.throws (newError "offline") else Invocation.promise 7)
      2 FeeCache.fresh).2.invocations = 2 :=
  ⟨rfl, rfl, rfl, by decide, rfl, rfl⟩

/-! ## The shape of an accepted order spec -/

theorem parseOrderSpec_of_guard (spec : List String)
    (h : indexOf spec "@" = -1 ∨ indexOf spec "@" = 0 ∨
      indexOf spec "@" = (spec.length : Int) - 1) :
    parseOrderSpec spec =
      Except.error (newParsingError "Must specify both an amount and a rate"
        (Input.tokens spec)) := by
  simp only [parseOrderSpec, h, if_true]
  rfl

theorem exists_first_split (x : String) (l : List String) (h : x ∈ l) :
    ∃ pre post, l = pre ++ x :: post ∧ x ∉ pre := by
  induction l with
  | nil => cases h
  | cons y ys ih =>
    by_cases hy : y = x
    · exact ⟨[], ys, by rw [hy]; rfl, List.not_mem_nil x⟩
    · have hm : x ∈ ys := by
        rcases List.mem_cons.1 h with h1 | h1
        · exact absurd h1.symm hy
        · exact h1
      obtain ⟨pre, post, hl, hpre⟩ := ih hm
      refine ⟨y :: pre, post, by rw [hl]; rfl, ?_⟩
      intro hx
      rcases List.mem_cons.1 hx with h1 | h1
      · exact hy h1.symm
      · exact hpre h1

theorem parseValue_ok_inv (spec : List String) (v : Value) (h : parseValue spec = Except.ok v) :
    ∃ n c, spec = [n, c] ∧ NumericGrammar n ∧ c ∈ currencySet := by
  match spec, h with
  | [], h => rw [parseValue_short [] (by simp)] at h; cases h
  | [a], h => rw [parseValue_short [a] (by simp)] at h; cases h
  | a :: b :: c :: rest, h => rw [parseValue_long (a :: b :: c :: rest) (by simp)] at h; cases h
  | [n, c], h =>
    rw [parseValue_pair] at h
    by_cases hn : isNumeric n = true
    · by_cases hc : c ∈ currencySet
      · exact ⟨n, c, rfl, (isNumeric_iff n).1 hn, hc⟩
      · rw [if_pos hn, if_neg hc] at h; cases h
    · rw [if_neg hn] at h; cases h

theorem bind_ok_inv {α β : Type} (x : Except Thrown α) (f : α → Except Thrown β) (b : β)
    (h : (x >>= f) = Except.ok b) : ∃ a, x = Except.ok a ∧ f a = Except.ok b := by
  cases x with
  | error e => cases h
  | ok a => exact ⟨a, rfl, h⟩

theorem parseAmount_ok_inv (spec : List String) (q : Amount)
    (h : parseAmount spec = Except.ok q) :
    ∃ n c, NumericGrammar n ∧ c ∈ currencySet ∧
      (spec = [n, c] ∨ ∃ x t, spec = [n, c, x, t]) := by
  match spec, h with
  | [], h => simp [parseAmount] at h
  | [a], h => simp [parseAmount] at h
  | [a, b, c], h => rw [parseAmount_other_length [a, b, c] (by simp) (by simp)] at h; cases h
  | a :: b :: c :: d :: e :: rest, h =>
    rw [parseAmount_other_length (a :: b :: c :: d :: e :: rest) (by simp) (by simp)] at h
    cases h
  | [n, c], h =>
    rw [parseAmount_two] at h
    obtain ⟨v, hv, -⟩ := bind_ok_inv _ _ _ h
    obtain ⟨n', c', he, hn, hc⟩ := parseValue_ok_inv _ v hv
    simp only [List.cons.injEq, and_true] at he
    obtain ⟨rfl, rfl⟩ := he
    exact ⟨n, c, hn, hc, Or.inl rfl⟩
  | [n, c, x, t], h =>
    rw [parseAmount_four_eq] at h
    obtain ⟨v, hv, -⟩ := bind_ok_inv _ _ _ h
    obtain ⟨n', c', he, hn, hc⟩ := parseValue_ok_inv _ v hv
    simp only [List.cons.injEq, and_true] at he
    obtain ⟨rfl, rfl⟩ := he
    exact ⟨n, c, hn, hc, Or.inr ⟨x, t, rfl⟩⟩

theorem parseOrderSpec_ok_inv (spec : List String) (r : OrderSpec)
    (h : parseOrderSpec spec = Except.ok r) :
    ∃ pre post q v, spec = pre ++ "@" :: post ∧ "@" ∉ pre ∧
      parseAmount pre = Except.ok q ∧ parseValue post = Except.ok v := by
  by_cases hmem : "@" ∈ spec
  · obtain ⟨pre, post, rfl, hpre⟩ := exists_first_split "@" spec hmem
    by_cases hp : pre = []
    · subst hp
      rw [parseOrderSpec_of_guard _ (Or.inr (Or.inl (by simp [indexOf, indexOfFrom])))] at h
      cases h
    · by_cases hq : post = []
      · subst hq
        rw [parseOrderSpec_of_guard _ (Or.inr (Or.inr (by
          rw [indexOf_append "@" pre [] hpre]; simp)))] at h
        cases h
      · rw [parseOrderSpec_split pre post hpre hp hq] at h
        obtain ⟨q, hq1, h2⟩ := bind_ok_inv _ _ _ h
        obtain ⟨v, hv, -⟩ := bind_ok_inv _ _ _ h2
        exact ⟨pre, post, q, v, rfl, hpre, hq1, hv⟩
  · rw [parseOrderSpec_of_guard _ (Or.inl (indexOfFrom_of_not_mem "@" spec 0 hmem))] at h
    cases h

/-- C18: every token sequence on which `parseOrderSpec` succeeds has 5 or 7 tokens and
exactly one `@`, at index 2 (5 tokens) or index 4 (7 tokens); its first two tokens are a
numeric amount and a supported currency, and so are the two tokens after the `@`. -/
theorem parseOrderSpec_success_shape (spec : List String) (r : OrderSpec)
    (h : parseOrderSpec spec = Except.ok r) :
    ∃ n c m d, NumericGrammar n ∧ c ∈ currencySet ∧ NumericGrammar m ∧ d ∈ currencySet ∧
      spec.count "@" = 1 ∧
      ((spec = [n, c, "@", m, d] ∧ spec.length = 5) ∨
        (∃ x t, spec = [n, c, x, t, "@", m, d] ∧ spec.length = 7)) := by
  obtain ⟨pre, post, q, v, rfl, hpre, hq, hv⟩ := parseOrderSpec_ok_inv spec r h
  obtain ⟨m, d, rfl, hm, hd⟩ := parseValue_ok_inv post v hv
  obtain ⟨n, c, hn, hc, hshape⟩ := parseAmount_ok_inv pre q hq
  have hcount : (pre ++ "@" :: [m, d]).count "@" = 1 := by
    have h0 : pre.count "@" = 0 := List.count_eq_zero.2 hpre
    have hm' : m ≠ "@" := numericGrammar_ne_at m hm
    have hd' : d ≠ "@" := currency_ne_at d hd
    simp [List.count_append, List.count_cons, h0, hm', hd']
  refine ⟨n, c, m, d, hn, hc, hm, hd, hcount, ?_⟩
  rcases hshape with rfl | ⟨x, t, rfl⟩
  · exact Or.inl ⟨rfl, rfl⟩
  · exact Or.inr ⟨x, t, rfl, rfl⟩

/-- C18 on the two examples of the spec. -/
theorem parseOrderSpec_success_shape_witness :
    (∃ n c m d, NumericGrammar n ∧ c ∈ currencySet ∧ NumericGrammar m ∧ d ∈ currencySet ∧
      ["20", "BTC", "@", "50", "USD"].count "@" = 1 ∧
      ((["20", "BTC", "@", "50", "USD"] = [n, c, "@", m, d] ∧
          ["20", "BTC", "@", "50", "USD"].length = 5) ∨
        (∃ x t, ["20", "BTC", "@", "50", "USD"] = [n, c, x, t, "@", m, d] ∧
          ["20", "BTC", "@", "50", "USD"].length = 7))) ∧
    (∃ n c m d, NumericGrammar n ∧ c ∈ currencySet ∧ NumericGrammar m ∧ d ∈ currencySet ∧
      ["500", "USD", "in", "BTC", "@", "50", "USD"].count "@" = 1 ∧
      ((["500", "USD", "in", "BTC", "@", "50", "USD"] = [n, c, "@", m, d] ∧
          ["500", "USD", "in", "BTC", "@", "50", "USD"].length = 5) ∨
        (∃ x t, ["500", "USD", "in", "BTC", "@", "50", "USD"] = [n, c, x, t, "@", m, d] ∧
          ["500", "USD", "in", "BTC", "@", "50", "USD"].length = 7))) :=
  ⟨parseOrderSpec_success_shape ["20", "BTC", "@", "50", "USD"]
      { quantity := { baseValue := { currency := "BTC", amount := BigNumber.finite 20 0 },
                      targetCurrency := none },
        rate := { currency := "USD", amount := BigNumber.finite 50 0 } } rfl,
   parseOrderSpec_success_shape ["500", "USD", "in", "BTC", "@", "50", "USD"]
      { quantity := { baseValue := { currency := "USD", amount := BigNumber.finite 500 0 },
                      targetCurrency := some "BTC" },
        rate := { currency := "USD", amount := BigNumber.finite 50 0 } } rfl⟩

/-! ## A rate of zero -/

theorem div_by_zero (x : BigNumber) (places : Nat) :
    x.div (BigNumber.finite 0 places) = BigNumber.infinity ∨
    x.div (BigNumber.finite 0 places) = BigNumber.nan := by
  cases x with
  | nan => exact Or.inr rfl
  | infinity => exact Or.inl rfl
  | finite c q =>
    by_cases hc : c = 0
    · exact Or.inr (by simp [BigNumber.div, hc])
    · exact Or.inl (by simp [BigNumber.div, hc])

/-- C20: a rate of zero is rejected nowhere.  `parseValue` accepts the amount tokens `0` and
`0.0` with any supported currency, as amounts of value zero; `normalizeQuantity` returns a
result for every order spec that has a target currency and equal base and rate currencies,
whatever the rate amount; and when the rate amount is zero the amount returned is the
library's `Infinity` or `NaN`, no error being thrown. -/
theorem zero_rate_not_rejected :
    (∀ C, C ∈ currencySet →
      parseValue ["0", C] = Except.ok { currency := C, amount := BigNumber.finite 0 0 } ∧
      parseValue ["0.0", C] = Except.ok { currency := C, amount := BigNumber.finite 0 1 }) ∧
    (BigNumber.finite 0 0).value = some 0 ∧ (BigNumber.finite 0 1).value = some 0 ∧
    (∀ (o : OrderSpec) (t : String), o.quantity.targetCurrency = some t →
      o.quantity.baseValue.currency = o.rate.currency →
      ∃ r, normalizeQuantity o = Except.ok r) ∧
    (∀ (o : OrderSpec) (t : String) (places : Nat), o.quantity.targetCurrency = some t →
      o.quantity.baseValue.currency = o.rate.currency →
      o.rate.amount = BigNumber.finite 0 places →
      ∃ a, normalizeQuantity o =
          Except.ok { rate := o.rate, quantity := { currency := t, amount := a } } ∧
        (a = BigNumber.infinity ∨ a = BigNumber.nan)) := by
  have hn : ∀ (o : OrderSpec) (t : String), o.quantity.targetCurrency = some t →
      o.quantity.baseValue.currency = o.rate.currency →
      normalizeQuantity o =
        Except.ok { rate := o.rate,
                    quantity := { currency := t,
                                  amount := o.quantity.baseValue.amount.div o.rate.amount } } := by
    intro o t ht hc
    simp only [normalizeQuantity, ht, hc, if_true]
    rfl
  refine ⟨?_, by simp [BigNumber.value], by simp [BigNumber.value], ?_, ?_⟩
  · intro C hC
    constructor
    · rw [parseValue_pair, if_pos (by decide), if_pos hC]
      rfl
    · rw [parseValue_pair, if_pos (by decide), if_pos hC]
      rfl
  · intro o t ht hc
    exact ⟨_, hn o t ht hc⟩
  · intro o t places ht hc h0
    refine ⟨_, hn o t ht hc, ?_⟩
    rw [h0]
    exact div_by_zero _ places

/-- C20 on `1 USD in BTC @ 0 USD` and `0 USD in BTC @ 0.0 USD`: both parse, and
normalising gives `Infinity` and `NaN`. -/
theorem zero_rate_not_rejected_witness :
    (parseOrderSpec ["1", "USD", "in", "BTC", "@", "0", "USD"] >>= normalizeQuantity) =
      Except.ok { rate := { currency := "USD", amount := BigNumber.finite 0 0 },
                  quantity := { currency := "BTC", amount := BigNumber.infinity } } ∧
    (parseOrderSpec ["0", "USD", "in", "BTC", "@", "0.0", "USD"] >>= normalizeQuantity) =
      Except.ok { rate := { currency := "USD", amount := BigNumber.finite 0 1 },
                  quantity := { currency := "BTC", amount := BigNumber.nan } } ∧
    parseValue ["0", "USD"] =
      Except.ok { currency := "USD", amount := BigNumber.finite 0 0 } :=
  ⟨rfl, rfl, (zero_rate_not_rejected.1 "USD" (by decide)).1⟩

end GeminiClient
